import Mathlib

/-!
Verification of the daymeta calendar core: civil-date utilities
(src/utils/civil-date.ts), the table-driven lunar conversion engine
(src/algorithms/lunar/table.ts), the JSON holiday rule expansion
(src/providers/holiday/json.ts) and the Korean substitute-holiday policy
(KoreanSubstitutePolicy.apply).

Dates YMD "YYYY-MM-DD" are represented by their parsed components
(CivilDate).  The JavaScript source computes with Date.UTC millisecond
arithmetic; in UTC there are exactly 86400000 ms per day, so all of the
source's date operations are exact integer day arithmetic over the
proleptic Gregorian calendar, which is what the definitions below
implement.  Lean's Int division / and modulo % are Euclidean; for the
positive constant divisors used here (4, 100, 400, 7) they coincide with
the floor division performed by the JS engine.
-/

/-- Civil date: the parsed components of a YMD string (parseYMD). -/
structure CivilDate where
  y : Int
  m : Int
  d : Int
deriving DecidableEq, Repr

/-- isLeapYear from src/utils/civil-date.ts:
year % 4 === 0 && year % 100 !== 0 || year % 400 === 0. -/
def isLeapYear (y : Int) : Bool :=
  (y % 4 == 0 && y % 100 != 0) || y % 400 == 0

/-- daysInYear from src/utils/civil-date.ts: 366 in a leap year else 365. -/
def daysInYear (y : Int) : Int :=
  if isLeapYear y then 366 else 365

/-- Length of a Gregorian month, as realised by Date.UTC day arithmetic. -/
def daysInMonth (y : Int) (m : Int) : Int :=
  if m = 2 then (if isLeapYear y then 29 else 28)
  else if m = 4 ∨ m = 6 ∨ m = 9 ∨ m = 11 then 30
  else 31

/-- Days in months 1..k of year y (helper for day-of-year arithmetic). -/
def daysUpToMonth (y : Int) : Nat → Int
  | 0 => 0
  | k + 1 => daysUpToMonth y k + daysInMonth y (k + 1)

/-- Days of year y strictly before month m, i.e. the number of days between
Date.UTC(y,0,1) and Date.UTC(y,m-1,1). -/
def daysBeforeMonth (y : Int) (m : Int) : Int :=
  daysUpToMonth y (m - 1).toNat

/-- dayOfYear from src/utils/civil-date.ts: the floored day difference between
Date.UTC(y,m-1,d) and Date.UTC(y,0,1), plus 1.  For any month in 1..12 this
millisecond difference is exactly daysBeforeMonth plus the day offset. -/
def dayOfYear (c : CivilDate) : Int :=
  daysBeforeMonth c.y c.m + c.d

/-- Days from 0000-01-01 to y-01-01 in the proleptic Gregorian calendar
(the day count underlying Date.UTC). -/
def daysToYear (y : Int) : Int :=
  365 * y + (y + 3) / 4 - (y + 99) / 100 + (y + 399) / 400

/-- Absolute day number of a civil date (days since 0000-01-01).  Date.UTC
millisecond timestamps are an affine image of this quantity. -/
def toEpochDays (c : CivilDate) : Int :=
  daysToYear c.y + daysBeforeMonth c.y c.m + c.d - 1

/-- dayOfWeek from src/utils/civil-date.ts (Date.getUTCDay, 0=Sunday ..
6=Saturday).  0000-01-01 has epoch day 0 and was a Saturday, and
getUTCDay is periodic with period 7 over the day number. -/
def dayOfWeek (c : CivilDate) : Int :=
  (toEpochDays c + 6) % 7

/-- Month lookup used when a day count from Jan 1 is converted back to a
month/day pair (getUTCMonth / getUTCDate of yearStart + (doy-1) days):
starting at month mStart, consume whole months while the remaining day count
exceeds the month length; fuel bounds the scan at month 12. -/
def findMonthAux (y : Int) : Nat → Int → Int → Int × Int
  | 0, mo, doy => (mo, doy)
  | fuel + 1, mo, doy =>
    if doy ≤ daysInMonth y mo then (mo, doy)
    else findMonthAux y fuel (mo + 1) (doy - daysInMonth y mo)

/-- Decode a day-of-year (already normalised into 1..daysInYear y) to a
civil date in year y. -/
def ymdInYear (y : Int) (doy : Int) : CivilDate :=
  let p := findMonthAux y 11 1 doy
  ⟨y, p.1, p.2⟩

/-- Fuel-measured normalisation step count for ymdFromDayOfYear. -/
def ymdFuel (doy : Int) : Nat :=
  if doy < 1 then (1 - doy).toNat + 1000 else doy.toNat

/-- Year normalisation for out-of-range day-of-year values, exactly as
Date.UTC carries an out-of-range day count into adjacent years. -/
def ymdAux : Nat → Int → Int → CivilDate
  | 0, y, doy => ⟨y, 1, doy⟩
  | fuel + 1, y, doy =>
    if doy < 1 then ymdAux fuel (y - 1) (doy + daysInYear (y - 1))
    else if daysInYear y < doy then ymdAux fuel (y + 1) (doy - daysInYear y)
    else ymdInYear y doy

/-- ymdFromDayOfYear from src/utils/civil-date.ts: the date obtained by adding
(doy - 1) days to Date.UTC(year,0,1) and reading back its UTC components. -/
def ymdFromDayOfYear (y : Int) (doy : Int) : CivilDate :=
  ymdAux (ymdFuel doy) y doy

/-- addDays from src/utils/civil-date.ts: setUTCDate(getUTCDate() + delta)
adds exactly delta days to the UTC timestamp; equivalently, re-normalise
(year, dayOfYear + delta). -/
def addDays (c : CivilDate) (delta : Int) : CivilDate :=
  ymdFromDayOfYear c.y (dayOfYear c + delta)

/-- isWeekend from src/utils/civil-date.ts: Saturday or Sunday. -/
def isWeekend (c : CivilDate) : Bool :=
  dayOfWeek c == 0 || dayOfWeek c == 6

/-- Structural validity of a civil date: the dates that round-trip through
a YMD string. -/
def validCivil (c : CivilDate) : Prop :=
  1 ≤ c.m ∧ c.m ≤ 12 ∧ 1 ≤ c.d ∧ c.d ≤ daysInMonth c.y c.m

instance (c : CivilDate) : Decidable (validCivil c) := by
  unfold validCivil; infer_instance

/-- Lexicographic order on civil dates; on canonical YMD strings this is
exactly the order of String.localeCompare used by the source. -/
def dateLE (a b : CivilDate) : Prop :=
  a.y < b.y ∨ (a.y = b.y ∧ (a.m < b.m ∨ (a.m = b.m ∧ a.d ≤ b.d)))

instance (a b : CivilDate) : Decidable (dateLE a b) := by
  unfold dateLE; infer_instance

-- Basic bounds

theorem daysInYear_bounds (y : Int) : 365 ≤ daysInYear y ∧ daysInYear y ≤ 366 := by
  unfold daysInYear; split <;> omega

theorem daysInMonth_bounds (y m : Int) : 28 ≤ daysInMonth y m ∧ daysInMonth y m ≤ 31 := by
  unfold daysInMonth; split
  · split <;> omega
  · split <;> omega

theorem daysToYear_succ (y : Int) : daysToYear (y + 1) = daysToYear y + daysInYear y := by
  unfold daysToYear daysInYear isLeapYear
  simp only [Bool.or_eq_true, Bool.and_eq_true, beq_iff_eq, bne_iff_ne]
  split <;> omega

theorem daysUpToMonth_nonneg (y : Int) (k : Nat) : 0 ≤ daysUpToMonth y k := by
  induction k with
  | zero => simp [daysUpToMonth]
  | succ n ih =>
    have := daysInMonth_bounds y (n + 1)
    simp only [daysUpToMonth]
    omega

theorem daysUpToMonth_mono (y : Int) {k k' : Nat} (h : k ≤ k') :
    daysUpToMonth y k ≤ daysUpToMonth y k' := by
  induction k' with
  | zero => simp_all
  | succ n ih =>
    rcases Nat.lt_or_ge k (n + 1) with hlt | hge
    · have h1 := ih (by omega)
      have h2 := daysInMonth_bounds y (n + 1)
      simp only [daysUpToMonth]
      omega
    · have : k = n + 1 := by omega
      subst this
      exact le_refl _

theorem daysUpToMonth_twelve (y : Int) : daysUpToMonth y 12 = daysInYear y := by
  cases h : isLeapYear y <;>
    simp [daysUpToMonth, daysInMonth, daysInYear, h]

theorem daysBeforeMonth_succ (y m : Int) (h : 1 ≤ m) :
    daysBeforeMonth y (m + 1) = daysBeforeMonth y m + daysInMonth y m := by
  unfold daysBeforeMonth
  have h1 : (m + 1 - 1).toNat = (m - 1).toNat + 1 := by omega
  rw [h1]
  simp only [daysUpToMonth]
  have h2 : ((m - 1).toNat : Int) + 1 = m := by omega
  rw [h2]

theorem daysBeforeMonth_mono (y : Int) {m m' : Int} (_h1 : 0 ≤ m) (h2 : m ≤ m') :
    daysBeforeMonth y m ≤ daysBeforeMonth y m' := by
  unfold daysBeforeMonth
  exact daysUpToMonth_mono y (by omega)

theorem daysBeforeMonth_one (y : Int) : daysBeforeMonth y 1 = 0 := by
  simp [daysBeforeMonth, daysUpToMonth]

theorem daysBeforeMonth_thirteen (y : Int) : daysBeforeMonth y 13 = daysInYear y := by
  have h : daysBeforeMonth y 13 = daysUpToMonth y 12 := rfl
  rw [h, daysUpToMonth_twelve]

theorem daysBeforeMonth_twelve_add (y : Int) :
    daysBeforeMonth y 12 + daysInMonth y 12 = daysInYear y := by
  have h := daysBeforeMonth_succ y 12 (by omega)
  norm_num at h
  have h13 := daysBeforeMonth_thirteen y
  omega

theorem findMonthAux_zero (y mo doy : Int) : findMonthAux y 0 mo doy = (mo, doy) := rfl

theorem findMonthAux_step (y : Int) (fuel : Nat) (mo doy : Int) :
    findMonthAux y (fuel + 1) mo doy =
      if doy ≤ daysInMonth y mo then (mo, doy)
      else findMonthAux y fuel (mo + 1) (doy - daysInMonth y mo) := rfl

theorem findMonthAux_char (y : Int) :
    ∀ (fuel : Nat) (mo doy : Int), 1 ≤ mo → mo + fuel = 12 → 1 ≤ doy →
    daysBeforeMonth y mo + doy ≤ daysInYear y →
    ∃ m2 d2 : Int, findMonthAux y fuel mo doy = (m2, d2) ∧
      1 ≤ m2 ∧ m2 ≤ 12 ∧ 1 ≤ d2 ∧ d2 ≤ daysInMonth y m2 ∧
      daysBeforeMonth y m2 + d2 = daysBeforeMonth y mo + doy := by
  intro fuel
  induction fuel with
  | zero =>
    intro mo doy h1 h2 h3 h4
    have hmo : mo = 12 := by omega
    subst hmo
    have := daysBeforeMonth_twelve_add y
    exact ⟨12, doy, findMonthAux_zero y 12 doy, by omega, by omega, by omega, by omega, by omega⟩
  | succ n ih =>
    intro mo doy h1 h2 h3 h4
    rw [findMonthAux_step]
    split
    · exact ⟨mo, doy, rfl, by omega, by omega, by omega, by omega, by omega⟩
    · rename_i hgt
      have hsucc := daysBeforeMonth_succ y mo h1
      obtain ⟨m2, d2, heq, p1, p2, p3, p4, p5⟩ :=
        ih (mo + 1) (doy - daysInMonth y mo) (by omega) (by omega) (by omega) (by omega)
      exact ⟨m2, d2, heq, p1, p2, p3, p4, by omega⟩

theorem ymdInYear_eq (y doy a b : Int) (h : findMonthAux y 11 1 doy = (a, b)) :
    ymdInYear y doy = ⟨y, a, b⟩ := by
  unfold ymdInYear
  rw [h]

theorem ymdInYear_char (y doy : Int) (h1 : 1 ≤ doy) (h2 : doy ≤ daysInYear y) :
    validCivil (ymdInYear y doy) ∧ (ymdInYear y doy).y = y ∧
    dayOfYear (ymdInYear y doy) = doy := by
  have h0 := daysBeforeMonth_one y
  obtain ⟨m2, d2, heq, p1, p2, p3, p4, p5⟩ :=
    findMonthAux_char y 11 1 doy (by omega) (by omega) h1 (by omega)
  rw [ymdInYear_eq y doy m2 d2 heq]
  unfold validCivil dayOfYear
  dsimp only
  omega

theorem toEpochDays_eq (c : CivilDate) :
    toEpochDays c = daysToYear c.y + dayOfYear c - 1 := by
  unfold toEpochDays dayOfYear
  omega

theorem ymdFuel_pos (doy : Int) : 1 ≤ ymdFuel doy ∨ doy < 1 := by
  unfold ymdFuel
  split <;> omega

theorem ymdAux_char :
    ∀ (fuel : Nat) (y doy : Int), ymdFuel doy ≤ fuel →
    validCivil (ymdAux fuel y doy) ∧
    toEpochDays (ymdAux fuel y doy) = daysToYear y + doy - 1 := by
  intro fuel
  induction fuel with
  | zero =>
    intro y doy h
    exfalso
    unfold ymdFuel at h
    split at h <;> omega
  | succ n ih =>
    intro y doy h
    simp only [ymdAux]
    split
    · rename_i hlt
      have hb := daysInYear_bounds (y - 1)
      have hfuel : ymdFuel (doy + daysInYear (y - 1)) ≤ n := by
        unfold ymdFuel at h ⊢
        split at h <;> split <;> omega
      have hres := ih (y - 1) (doy + daysInYear (y - 1)) hfuel
      have hdy : daysToYear y = daysToYear (y - 1) + daysInYear (y - 1) := by
        have := daysToYear_succ (y - 1)
        simpa using this
      exact ⟨hres.1, by omega⟩
    · split
      · rename_i hge hgt
        have hb := daysInYear_bounds y
        have hfuel : ymdFuel (doy - daysInYear y) ≤ n := by
          unfold ymdFuel at h ⊢
          split at h <;> split <;> omega
        have hres := ih (y + 1) (doy - daysInYear y) hfuel
        have hdy := daysToYear_succ y
        exact ⟨hres.1, by omega⟩
      · rename_i hge hle
        have hchar := ymdInYear_char y doy (by omega) (by omega)
        refine ⟨hchar.1, ?_⟩
        rw [toEpochDays_eq]
        rw [hchar.2.1, hchar.2.2]

theorem ymdFromDayOfYear_char (y doy : Int) :
    validCivil (ymdFromDayOfYear y doy) ∧
    toEpochDays (ymdFromDayOfYear y doy) = daysToYear y + doy - 1 :=
  ymdAux_char (ymdFuel doy) y doy (le_refl _)

theorem addDays_char (c : CivilDate) (delta : Int) :
    validCivil (addDays c delta) ∧
    toEpochDays (addDays c delta) = toEpochDays c + delta := by
  have h := ymdFromDayOfYear_char c.y (dayOfYear c + delta)
  have he := toEpochDays_eq c
  exact ⟨h.1, by unfold addDays; omega⟩

theorem daysToYear_gap {y y' : Int} (h : y < y') :
    daysToYear y + daysInYear y ≤ daysToYear y' := by
  have key : ∀ n : Nat, daysToYear y + daysInYear y ≤ daysToYear (y + 1 + n) := by
    intro n
    induction n with
    | zero => simp [daysToYear_succ]
    | succ k ih =>
      have h1 : (y + 1 + (k + 1 : Nat)) = (y + 1 + k) + 1 := by push_cast; ring
      rw [h1, daysToYear_succ]
      have := (daysInYear_bounds (y + 1 + k)).1
      omega
  have h2 := key (y' - y - 1).toNat
  have h3 : (y + 1 + ((y' - y - 1).toNat : Int)) = y' := by omega
  rw [h3] at h2
  exact h2

theorem epoch_year_uniq {y a y' b : Int}
    (h1 : 1 ≤ a) (h2 : a ≤ daysInYear y) (h3 : 1 ≤ b) (h4 : b ≤ daysInYear y')
    (heq : daysToYear y + a = daysToYear y' + b) : y = y' ∧ a = b := by
  rcases lt_trichotomy y y' with hlt | heqy | hgt
  · have := daysToYear_gap hlt
    omega
  · subst heqy; omega
  · have := daysToYear_gap hgt
    omega

theorem validCivil_dayOfYear_bounds {c : CivilDate} (h : validCivil c) :
    1 ≤ dayOfYear c ∧ dayOfYear c ≤ daysInYear c.y := by
  obtain ⟨h1, h2, h3, h4⟩ := h
  unfold dayOfYear
  constructor
  · have : 0 ≤ daysBeforeMonth c.y c.m := daysUpToMonth_nonneg _ _
    omega
  · have hs := daysBeforeMonth_succ c.y c.m h1
    have hm : daysBeforeMonth c.y (c.m + 1) ≤ daysBeforeMonth c.y 13 :=
      daysBeforeMonth_mono c.y (by omega) (by omega)
    have h13 := daysBeforeMonth_thirteen c.y
    omega

theorem valid_doy_uniq {y m d m' d' : Int}
    (h : validCivil ⟨y, m, d⟩) (h' : validCivil ⟨y, m', d'⟩)
    (heq : daysBeforeMonth y m + d = daysBeforeMonth y m' + d') : m = m' ∧ d = d' := by
  obtain ⟨a1, a2, a3, a4⟩ := h
  obtain ⟨b1, b2, b3, b4⟩ := h'
  simp only at a1 a2 a3 a4 b1 b2 b3 b4
  rcases lt_trichotomy m m' with hlt | heqm | hgt
  · exfalso
    have hs := daysBeforeMonth_succ y m a1
    have hm : daysBeforeMonth y (m + 1) ≤ daysBeforeMonth y m' :=
      daysBeforeMonth_mono y (by omega) (by omega)
    omega
  · subst heqm; omega
  · exfalso
    have hs := daysBeforeMonth_succ y m' b1
    have hm : daysBeforeMonth y (m' + 1) ≤ daysBeforeMonth y m :=
      daysBeforeMonth_mono y (by omega) (by omega)
    omega

theorem toEpochDays_inj {c c' : CivilDate} (h : validCivil c) (h' : validCivil c')
    (heq : toEpochDays c = toEpochDays c') : c = c' := by
  rw [toEpochDays_eq, toEpochDays_eq] at heq
  have hb := validCivil_dayOfYear_bounds h
  have hb' := validCivil_dayOfYear_bounds h'
  have hy := epoch_year_uniq hb.1 hb.2 hb'.1 hb'.2 (by omega)
  obtain ⟨c1, c2, c3⟩ := c
  obtain ⟨d1, d2, d3⟩ := c'
  simp only at hy ⊢
  have hy1 : c1 = d1 := hy.1
  subst hy1
  have hdoy : daysBeforeMonth c1 c2 + c3 = daysBeforeMonth c1 d2 + d3 := by
    unfold dayOfYear at hy
    simp only at hy
    omega
  have := valid_doy_uniq h h' hdoy
  simp_all

theorem daysInMonth_twelve (y : Int) : daysInMonth y 12 = 31 := by
  simp [daysInMonth]

theorem dayOfYear_dec31 (y : Int) : dayOfYear ⟨y, 12, 31⟩ = daysInYear y := by
  unfold dayOfYear
  dsimp only
  have h := daysBeforeMonth_twelve_add y
  have h31 := daysInMonth_twelve y
  omega

theorem ymdFromDayOfYear_inYear (y doy : Int) (h1 : 1 ≤ doy) (h2 : doy ≤ daysInYear y) :
    (ymdFromDayOfYear y doy).y = y ∧ dayOfYear (ymdFromDayOfYear y doy) = doy := by
  have hc := ymdFromDayOfYear_char y doy
  have hb := validCivil_dayOfYear_bounds hc.1
  have he := toEpochDays_eq (ymdFromDayOfYear y doy)
  have hu := epoch_year_uniq hb.1 hb.2 h1 h2 (by omega)
  exact ⟨hu.1, hu.2⟩

theorem epoch_lt_of_lex_lt {c c' : CivilDate} (h : validCivil c) (h' : validCivil c')
    (hl : c.y < c'.y ∨ (c.y = c'.y ∧ (c.m < c'.m ∨ (c.m = c'.m ∧ c.d < c'.d)))) :
    toEpochDays c < toEpochDays c' := by
  obtain ⟨a1, a2, a3, a4⟩ := h
  obtain ⟨b1, b2, b3, b4⟩ := h'
  rcases hl with hy | ⟨hy, hm | ⟨hm, hd⟩⟩
  · rw [toEpochDays_eq, toEpochDays_eq]
    have hb := validCivil_dayOfYear_bounds ⟨a1, a2, a3, a4⟩
    have hb' := validCivil_dayOfYear_bounds ⟨b1, b2, b3, b4⟩
    have := daysToYear_gap hy
    omega
  · unfold toEpochDays
    rw [hy]
    have hs := daysBeforeMonth_succ c'.y c.m a1
    have hmono : daysBeforeMonth c'.y (c.m + 1) ≤ daysBeforeMonth c'.y c'.m :=
      daysBeforeMonth_mono c'.y (by omega) (by omega)
    have hdm : daysInMonth c.y c.m = daysInMonth c'.y c.m := by rw [hy]
    omega
  · unfold toEpochDays
    rw [hy, hm]
    omega

theorem dateLE_iff_epoch {c c' : CivilDate} (h : validCivil c) (h' : validCivil c') :
    dateLE c c' ↔ toEpochDays c ≤ toEpochDays c' := by
  constructor
  · intro hle
    by_cases heq : c = c'
    · subst heq; omega
    · have hne : ¬(c.y = c'.y ∧ c.m = c'.m ∧ c.d = c'.d) := by
        intro hcomp
        apply heq
        obtain ⟨x1, x2, x3⟩ := c
        obtain ⟨z1, z2, z3⟩ := c'
        simp only at hcomp
        simp [hcomp.1, hcomp.2.1, hcomp.2.2]
      have hlt : c.y < c'.y ∨ (c.y = c'.y ∧ (c.m < c'.m ∨ (c.m = c'.m ∧ c.d < c'.d))) := by
        unfold dateLE at hle
        omega
      exact le_of_lt (epoch_lt_of_lex_lt h h' hlt)
  · intro he
    by_contra hn
    have hlt : c'.y < c.y ∨ (c'.y = c.y ∧ (c'.m < c.m ∨ (c'.m = c.m ∧ c'.d < c.d))) := by
      unfold dateLE at hn
      omega
    have := epoch_lt_of_lex_lt h' h hlt
    omega

/-- C8: civil day-of-year round trip.  For every valid date in year y,
ymdFromDayOfYear(y, dayOfYear(ymd)) recovers the date, and for every doy in
1..daysInYear(y), dayOfYear(ymdFromDayOfYear(y, doy)) = doy. -/
theorem c8_dayOfYear_roundtrip :
    (∀ c : CivilDate, validCivil c → ymdFromDayOfYear c.y (dayOfYear c) = c) ∧
    (∀ y doy : Int, 1 ≤ doy → doy ≤ daysInYear y →
      dayOfYear (ymdFromDayOfYear y doy) = doy) := by
  constructor
  · intro c hc
    have hch := ymdFromDayOfYear_char c.y (dayOfYear c)
    apply toEpochDays_inj hch.1 hc
    rw [hch.2, toEpochDays_eq c]
  · intro y doy h1 h2
    exact (ymdFromDayOfYear_inYear y doy h1 h2).2

/-- Witness for C8 at 2024-02-29 (leap day) and day-of-year 300 of 2023. -/
theorem c8_dayOfYear_roundtrip_witness :
    validCivil ⟨2024, 2, 29⟩ ∧
    ymdFromDayOfYear (2024 : Int) (dayOfYear ⟨2024, 2, 29⟩) = ⟨2024, 2, 29⟩ ∧
    dayOfYear (ymdFromDayOfYear 2023 300) = 300 := by
  refine ⟨by decide, ?_, ?_⟩
  · exact c8_dayOfYear_roundtrip.1 ⟨2024, 2, 29⟩ (by decide)
  · exact c8_dayOfYear_roundtrip.2 2023 300 (by decide) (by decide)

/-!
Lunar conversion engine, src/algorithms/lunar/table.ts.  A table row stores
the solar year y, the day-of-year ny of lunar 1/1, the leap-month position
(0 = none) and the parsed hex month-length mask (bit idx-1 set means
table-order month idx has 30 days).  Errors are the distinct throw sites of
the source; missingRowBang stands for the runtime TypeError that
destructuring dataMap.get(...)! raises when the row is absent.
-/

/-- One row of the lunar table (LunarYearData); mask holds
parseInt(row.mask, 16). -/
structure LunarRow where
  y : Int
  ny : Int
  leap : Int
  mask : Nat
deriving DecidableEq, Repr

/-- LunarDate from src/types.ts. -/
structure LunarDate where
  year : Int
  month : Int
  day : Int
  isLeapMonth : Bool
deriving DecidableEq, Repr

deriving instance DecidableEq for Except

/-- The throw sites of TableLunarAlgorithm. -/
inductive LunarError
  | rangeError
  | missingRowBang
  | missingAdjacent
  | missingRow
  | searchFailed
  | invalidLeapNone
  | invalidLeapPos
deriving DecidableEq, Repr

/-- Lookup in the dataMap built by the constructor; Map keeps the last row
for a duplicated year, hence the reversed search. -/
def getRow (t : List LunarRow) (year : Int) : Option LunarRow :=
  t.reverse.find? (fun r => r.y == year)

/-- Least table year (years.sort[0] in the constructor). -/
def minYearOf (t : List LunarRow) : Int :=
  match t.map (fun r => r.y) with
  | [] => 0
  | x :: xs => xs.foldl min x

/-- Greatest table year (years.sort[length-1] in the constructor). -/
def maxYearOf (t : List LunarRow) : Int :=
  match t.map (fun r => r.y) with
  | [] => 0
  | x :: xs => xs.foldl max x

/-- supports(year): year within the constructor's [min, max] range. -/
def supports (t : List LunarRow) (year : Int) : Bool :=
  !t.isEmpty && decide (minYearOf t ≤ year) && decide (year ≤ maxYearOf t)

/-- Month length of table-order month idx: 29 + ((mask >> (idx-1)) & 1). -/
def monthLen (mask : Nat) (idx : Nat) : Int :=
  29 + (((mask >>> (idx - 1)) % 2 : Nat) : Int)

/-- Total table-order months: 13 when a leap month is present, else 12. -/
def totalMonths (leap : Int) : Nat :=
  if 0 < leap then 13 else 12

/-- Sum of the lengths of table-order months 1..k. -/
def prefixLen (mask : Nat) : Nat → Int
  | 0 => 0
  | k + 1 => prefixLen mask k + monthLen mask (k + 1)

/-- Map a table-order month index to the nominal (month, isLeapMonth) pair
(the branch at the end of findLunarMonthDay). -/
def mapMonthIndex (leap : Int) (idx : Nat) : Int × Bool :=
  if leap = 0 then ((idx : Int), false)
  else if (idx : Int) ≤ leap then ((idx : Int), false)
  else if (idx : Int) = leap + 1 then (leap, true)
  else ((idx : Int) - 1, false)

/-- Scan of the month loop in findLunarMonthDay over the remaining
table-order indices, carrying the accumulated day count. -/
def findLunarAux (year leap : Int) (mask : Nat) (daysSince : Int) :
    List Nat → Int → Option LunarDate
  | [], _ => none
  | idx :: rest, accum =>
    if daysSince < accum + monthLen mask idx then
      some ⟨year, (mapMonthIndex leap idx).1, daysSince - accum + 1,
            (mapMonthIndex leap idx).2⟩
    else findLunarAux year leap mask daysSince rest (accum + monthLen mask idx)

/-- findLunarMonthDay from src/algorithms/lunar/table.ts. -/
def findLunarMonthDay (t : List LunarRow) (lunarYear : Int) (daysSince : Int) :
    Except LunarError LunarDate :=
  match getRow t lunarYear with
  | none => .error .missingRow
  | some row =>
    match findLunarAux lunarYear row.leap row.mask daysSince
        (List.range' 1 (totalMonths row.leap)) 0 with
    | some ld => .ok ld
    | none => .error .searchFailed

/-- solarToLunar from src/algorithms/lunar/table.ts. -/
def solarToLunar (t : List LunarRow) (date : CivilDate) : Except LunarError LunarDate :=
  if supports t date.y = false then .error .rangeError
  else
    match getRow t date.y with
    | none => .error .missingRowBang
    | some rowSY =>
      if rowSY.ny ≤ dayOfYear date then
        findLunarMonthDay t date.y (dayOfYear date - rowSY.ny)
      else
        match getRow t (date.y - 1) with
        | none => .error .missingAdjacent
        | some rowPrev =>
          findLunarMonthDay t (date.y - 1)
            (dayOfYear ⟨date.y - 1, 12, 31⟩ - rowPrev.ny + dayOfYear date)

/-- Accumulation loop of lunarToSolar: days of the nominal months 1..k that
precede the target month, inserting the leap slot right after its regular
occurrence. -/
def sumMonthsUpTo (leap : Int) (mask : Nat) : Nat → Int
  | 0 => 0
  | k + 1 =>
    sumMonthsUpTo leap mask k +
      (let idx : Nat := if leap = 0 then k + 1 else (if (k + 1 : Int) ≤ leap then k + 1 else k + 2)
       monthLen mask idx) +
      (if 0 < leap ∧ (k + 1 : Int) = leap then monthLen mask (leap + 1).toNat else 0)

/-- Value of the daysSinceLunarNY accumulator of lunarToSolar: the month
loop (as sumMonthsUpTo), the extra regular month when the target is the
leap month itself, and day - 1. -/
def lunarDaysSince (row : LunarRow) (ld : LunarDate) : Int :=
  sumMonthsUpTo row.leap row.mask (ld.month - 1).toNat +
    (if ld.isLeapMonth = true ∧ 0 < row.leap ∧ ld.month = row.leap then
      monthLen row.mask row.leap.toNat else 0) +
    ld.day - 1

/-- Year component of ymdFromDayOfYear(lunarYear, ny), the nyYear of
lunarToSolar. -/
def lunarNYYear (year ny : Int) : Int :=
  (ymdFromDayOfYear year ny).y

/-- lunarToSolar from src/algorithms/lunar/table.ts (current source: no
validation that day fits the encoded month length).  The source's local
bindings base/daysSince/nyYear/solarDOY/yearEnd are inlined through
lunarDaysSince and lunarNYYear. -/
def lunarToSolar (t : List LunarRow) (ld : LunarDate) : Except LunarError CivilDate :=
  if supports t ld.year = false then .error .rangeError
  else
    match getRow t ld.year with
    | none => .error .missingRowBang
    | some row =>
      if row.leap = 0 ∧ ld.isLeapMonth = true then .error .invalidLeapNone
      else if 0 < row.leap ∧ ld.isLeapMonth = true ∧ ld.month ≠ row.leap then
        .error .invalidLeapPos
      else
        if row.ny + lunarDaysSince row ld ≤
            dayOfYear ⟨lunarNYYear ld.year row.ny, 12, 31⟩ then
          .ok (ymdFromDayOfYear (lunarNYYear ld.year row.ny)
                (row.ny + lunarDaysSince row ld))
        else
          .ok (ymdFromDayOfYear (lunarNYYear ld.year row.ny + 1)
                (row.ny + lunarDaysSince row ld -
                  dayOfYear ⟨lunarNYYear ld.year row.ny, 12, 31⟩))

/-- Table-order index of a nominal (month, isLeapMonth) pair: the inverse
of mapMonthIndex on valid inputs (for the leap slot itself il is true and
month equals the leap position). -/
def tableIdx (leap month : Int) (il : Bool) : Nat :=
  if il = true then month.toNat + 1
  else if leap = 0 ∨ month ≤ leap then month.toNat else month.toNat + 1

/-- Encoded length of a nominal lunar month under a row. -/
def monthLenOf (row : LunarRow) (month : Int) (il : Bool) : Int :=
  monthLen row.mask (tableIdx row.leap month il)

/-- Well-formed row: the §3 data-model ranges for ny and leap. -/
def wfRow (row : LunarRow) : Prop :=
  1 ≤ row.ny ∧ row.ny ≤ daysInYear row.y ∧ 0 ≤ row.leap ∧ row.leap ≤ 12

instance (row : LunarRow) : Decidable (wfRow row) := by
  unfold wfRow; infer_instance

/-- The §3 length-sum invariant linking a row to the following year's row. -/
def sumInv (row rowNext : LunarRow) : Prop :=
  prefixLen row.mask (totalMonths row.leap) =
    daysInYear row.y - row.ny + rowNext.ny

instance (row rowNext : LunarRow) : Decidable (sumInv row rowNext) := by
  unfold sumInv; infer_instance

/-- Structurally valid lunar date with respect to its year's row
(data model §3: LunarDate validity). -/
def validLunar (row : LunarRow) (ld : LunarDate) : Prop :=
  1 ≤ ld.month ∧ ld.month ≤ 12 ∧
  (ld.isLeapMonth = true → 0 < row.leap ∧ ld.month = row.leap) ∧
  1 ≤ ld.day ∧ ld.day ≤ monthLenOf row ld.month ld.isLeapMonth

instance (row : LunarRow) (ld : LunarDate) : Decidable (validLunar row ld) := by
  unfold validLunar; infer_instance

theorem monthLen_bounds (mask idx : Nat) : 29 ≤ monthLen mask idx ∧ monthLen mask idx ≤ 30 := by
  unfold monthLen
  have h : (mask >>> (idx - 1)) % 2 < 2 := Nat.mod_lt _ (by omega)
  omega

theorem prefixLen_succ (mask : Nat) (k : Nat) :
    prefixLen mask (k + 1) = prefixLen mask k + monthLen mask (k + 1) := rfl

theorem prefixLen_succ_of (mask : Nat) {i : Nat} (h : 1 ≤ i) :
    prefixLen mask i = prefixLen mask (i - 1) + monthLen mask i := by
  obtain ⟨j, rfl⟩ : ∃ j, i = j + 1 := ⟨i - 1, by omega⟩
  simp [prefixLen_succ]

theorem prefixLen_mono (mask : Nat) {k k' : Nat} (h : k ≤ k') :
    prefixLen mask k ≤ prefixLen mask k' := by
  induction k' with
  | zero => simp_all
  | succ n ih =>
    rcases Nat.lt_or_ge k (n + 1) with hlt | hge
    · have h1 := ih (by omega)
      have h2 := monthLen_bounds mask (n + 1)
      rw [prefixLen_succ]
      omega
    · have : k = n + 1 := by omega
      subst this
      exact le_refl _

theorem prefixLen_lt (mask : Nat) {k k' : Nat} (h : k < k') :
    prefixLen mask k < prefixLen mask k' := by
  have h1 := prefixLen_mono mask (show k + 1 ≤ k' by omega)
  have h2 := monthLen_bounds mask (k + 1)
  rw [prefixLen_succ] at h1
  omega

theorem prefixLen_nonneg (mask : Nat) (k : Nat) : 0 ≤ prefixLen mask k := by
  have := prefixLen_mono mask (Nat.zero_le k)
  simpa [prefixLen] using this

theorem findLunarAux_found (year leap : Int) (mask : Nat) (ds : Int) :
    ∀ (j k : Nat), prefixLen mask k ≤ ds → ds < prefixLen mask (k + j) →
    ∃ i : Nat, k + 1 ≤ i ∧ i ≤ k + j ∧
      prefixLen mask (i - 1) ≤ ds ∧ ds < prefixLen mask i ∧
      findLunarAux year leap mask ds (List.range' (k + 1) j) (prefixLen mask k) =
        some ⟨year, (mapMonthIndex leap i).1, ds - prefixLen mask (i - 1) + 1,
              (mapMonthIndex leap i).2⟩ := by
  intro j
  induction j with
  | zero =>
    intro k h1 h2
    rw [show k + 0 = k by omega] at h2
    omega
  | succ n ih =>
    intro k h1 h2
    rw [List.range'_succ]
    by_cases hc : ds < prefixLen mask k + monthLen mask (k + 1)
    · refine ⟨k + 1, by omega, by omega, by simpa using h1, ?_, ?_⟩
      · rw [prefixLen_succ]; omega
      · simp only [findLunarAux, if_pos hc]
        simp
    · have hps : prefixLen mask k + monthLen mask (k + 1) = prefixLen mask (k + 1) :=
        (prefixLen_succ mask k).symm
      have hrec := ih (k + 1) (by omega) (by rw [show k + 1 + n = k + (n + 1) by omega]; exact h2)
      obtain ⟨i, p1, p2, p3, p4, p5⟩ := hrec
      refine ⟨i, by omega, by omega, p3, p4, ?_⟩
      simp only [findLunarAux, if_neg hc]
      rw [hps]
      exact p5

theorem findLunarAux_none (year leap : Int) (mask : Nat) (ds : Int) :
    ∀ (j k : Nat), prefixLen mask (k + j) ≤ ds →
    findLunarAux year leap mask ds (List.range' (k + 1) j) (prefixLen mask k) = none := by
  intro j
  induction j with
  | zero =>
    intro k h
    simp [findLunarAux]
  | succ n ih =>
    intro k h
    rw [List.range'_succ]
    have hmono : prefixLen mask (k + 1) ≤ prefixLen mask (k + (n + 1)) :=
      prefixLen_mono mask (by omega)
    have hps : prefixLen mask k + monthLen mask (k + 1) = prefixLen mask (k + 1) :=
      (prefixLen_succ mask k).symm
    simp only [findLunarAux, if_neg (by omega : ¬ds < prefixLen mask k + monthLen mask (k + 1))]
    rw [hps]
    exact ih (k + 1) (by rw [show k + 1 + n = k + (n + 1) by omega]; exact h)

theorem totalMonths_pos_eq {leap : Int} (h : 0 < leap) : totalMonths leap = 13 := by
  unfold totalMonths
  rw [if_pos h]

theorem totalMonths_zero_eq {leap : Int} (h : ¬0 < leap) : totalMonths leap = 12 := by
  unfold totalMonths
  rw [if_neg h]

theorem tableIdx_ge_one {leap month : Int} (il : Bool) (h : 1 ≤ month) :
    1 ≤ tableIdx leap month il := by
  unfold tableIdx
  split_ifs <;> omega

theorem tableIdx_le_total {leap month : Int} (il : Bool)
    (h1 : 1 ≤ month) (h2 : month ≤ 12) (h3 : 0 ≤ leap) (h4 : leap ≤ 12)
    (hil : il = true → 0 < leap ∧ month = leap) :
    tableIdx leap month il ≤ totalMonths leap := by
  unfold tableIdx totalMonths
  split_ifs <;>
    first
      | omega
      | (obtain ⟨hp, hm⟩ := hil (by assumption); omega)

theorem mapMonthIndex_tableIdx {leap month : Int} {il : Bool}
    (h1 : 1 ≤ month) (h2 : month ≤ 12) (_h3 : 0 ≤ leap)
    (hil : il = true → 0 < leap ∧ month = leap) :
    mapMonthIndex leap (tableIdx leap month il) = (month, il) := by
  rcases il with _ | _
  · unfold tableIdx
    rw [if_neg (by simp : ¬(false = true))]
    unfold mapMonthIndex
    split_ifs with hA hB hC hD hE hF hG <;>
      simp only [Prod.mk.injEq] <;>
      first
        | exact ⟨by omega, trivial⟩
        | (exfalso; omega)
  · obtain ⟨hp, hm⟩ := hil rfl
    unfold tableIdx
    rw [if_pos rfl]
    unfold mapMonthIndex
    split_ifs with hA hB hC <;>
      simp only [Prod.mk.injEq] <;>
      first
        | exact ⟨by omega, trivial⟩
        | (exfalso; omega)

theorem mapMonthIndex_char {leap : Int} {idx : Nat}
    (h1 : 1 ≤ idx) (h2 : idx ≤ totalMonths leap) (h3 : 0 ≤ leap) (h4 : leap ≤ 12) :
    ∃ (mo : Int) (il2 : Bool), mapMonthIndex leap idx = (mo, il2) ∧
      1 ≤ mo ∧ mo ≤ 12 ∧ (il2 = true → 0 < leap ∧ mo = leap) ∧
      tableIdx leap mo il2 = idx := by
  unfold mapMonthIndex
  by_cases hz : leap = 0
  · rw [if_pos hz]
    rw [hz, totalMonths_zero_eq (by omega)] at h2
    refine ⟨(idx : Int), false, rfl, by omega, by omega, by simp, ?_⟩
    unfold tableIdx
    rw [if_neg (by simp : ¬(false = true)), if_pos (Or.inl hz)]
    omega
  · rw [if_neg hz]
    have hpos : 0 < leap := by omega
    rw [totalMonths_pos_eq hpos] at h2
    by_cases hle : (idx : Int) ≤ leap
    · rw [if_pos hle]
      refine ⟨(idx : Int), false, rfl, by omega, by omega, by simp, ?_⟩
      unfold tableIdx
      rw [if_neg (by simp : ¬(false = true)), if_pos (Or.inr hle)]
      omega
    · rw [if_neg hle]
      by_cases heq : (idx : Int) = leap + 1
      · rw [if_pos heq]
        refine ⟨leap, true, rfl, by omega, by omega, fun _ => ⟨hpos, rfl⟩, ?_⟩
        unfold tableIdx
        rw [if_pos rfl]
        omega
      · rw [if_neg heq]
        refine ⟨(idx : Int) - 1, false, rfl, by omega, by omega, by simp, ?_⟩
        unfold tableIdx
        rw [if_neg (by simp : ¬(false = true)), if_neg (by push_neg; constructor <;> omega)]
        omega

theorem sumMonthsUpTo_step (leap : Int) (mask : Nat) (k : Nat) :
    sumMonthsUpTo leap mask (k + 1) =
      sumMonthsUpTo leap mask k +
        monthLen mask (if leap = 0 then k + 1 else (if (k + 1 : Int) ≤ leap then k + 1 else k + 2)) +
        (if 0 < leap ∧ (k + 1 : Int) = leap then monthLen mask (leap + 1).toNat else 0) := rfl

theorem sumMonthsUpTo_eq {leap : Int} (mask : Nat) (h3 : 0 ≤ leap) :
    ∀ k : Nat, sumMonthsUpTo leap mask k =
      prefixLen mask (k + (if 0 < leap ∧ leap ≤ (k : Int) then 1 else 0)) := by
  intro k
  induction k with
  | zero =>
    rw [if_neg (by omega : ¬(0 < leap ∧ leap ≤ ((0 : Nat) : Int)))]
    rfl
  | succ n ih =>
    rw [sumMonthsUpTo_step, ih]
    have e1 := prefixLen_succ mask n
    have e2 := prefixLen_succ mask (n + 1)
    by_cases hz : leap = 0
    · rw [if_pos hz,
        if_neg (by omega : ¬(0 < leap ∧ leap ≤ ((n : Nat) : Int))),
        if_neg (by omega : ¬(0 < leap ∧ (n + 1 : Int) = leap)),
        if_neg (by omega : ¬(0 < leap ∧ leap ≤ ((n + 1 : Nat) : Int)))]
      simp only [Nat.add_zero]
      omega
    · have hpos : 0 < leap := by omega
      rw [if_neg hz]
      rcases lt_trichotomy ((n : Int) + 1) leap with hlt | heq | hgt
      · rw [if_pos (by omega : (n + 1 : Int) ≤ leap),
          if_neg (by omega : ¬(0 < leap ∧ leap ≤ ((n : Nat) : Int))),
          if_neg (by omega : ¬(0 < leap ∧ (n + 1 : Int) = leap)),
          if_neg (by omega : ¬(0 < leap ∧ leap ≤ ((n + 1 : Nat) : Int)))]
        simp only [Nat.add_zero]
        omega
      · rw [if_pos (by omega : (n + 1 : Int) ≤ leap),
          if_neg (by omega : ¬(0 < leap ∧ leap ≤ ((n : Nat) : Int))),
          if_pos (by omega : 0 < leap ∧ (n + 1 : Int) = leap),
          if_pos (by omega : 0 < leap ∧ leap ≤ ((n + 1 : Nat) : Int))]
        have hcast : (leap + 1).toNat = n + 2 := by omega
        rw [hcast]
        simp only [Nat.add_zero]
        have b1 : prefixLen mask (n + 1 + 1) = prefixLen mask (n + 2) := by norm_num
        have b2 : monthLen mask (n + 1 + 1) = monthLen mask (n + 2) := by norm_num
        omega
      · rw [if_neg (by omega : ¬(n + 1 : Int) ≤ leap),
          if_pos (by omega : 0 < leap ∧ leap ≤ ((n : Nat) : Int)),
          if_neg (by omega : ¬(0 < leap ∧ (n + 1 : Int) = leap)),
          if_pos (by omega : 0 < leap ∧ leap ≤ ((n + 1 : Nat) : Int))]
        have b1 : prefixLen mask (n + 1 + 1) = prefixLen mask (n + 2) := by norm_num
        have b2 : monthLen mask (n + 1 + 1) = monthLen mask (n + 2) := by norm_num
        have e3 : prefixLen mask (n + 2) = prefixLen mask (n + 1) + monthLen mask (n + 2) := by
          rw [show n + 2 = n + 1 + 1 by omega]
          exact prefixLen_succ mask (n + 1)
        omega

theorem lunarDaysSince_eq {row : LunarRow} {ld : LunarDate}
    (h3 : 0 ≤ row.leap) (h1 : 1 ≤ ld.month)
    (hil : ld.isLeapMonth = true → 0 < row.leap ∧ ld.month = row.leap) :
    lunarDaysSince row ld =
      prefixLen row.mask (tableIdx row.leap ld.month ld.isLeapMonth - 1) + ld.day - 1 := by
  unfold lunarDaysSince tableIdx
  rw [sumMonthsUpTo_eq row.mask h3]
  rcases hb : ld.isLeapMonth with _ | _
  · simp only [hb, Bool.false_eq_true, false_and, if_false]
    by_cases hc : row.leap = 0 ∨ ld.month ≤ row.leap
    · rw [if_pos hc,
        if_neg (by omega : ¬(0 < row.leap ∧ row.leap ≤ (((ld.month - 1).toNat : Nat) : Int)))]
      rw [show (ld.month - 1).toNat + 0 = ld.month.toNat - 1 by omega]
      omega
    · rw [if_neg hc,
        if_pos (by push_neg at hc; constructor <;> omega)]
      rw [show (ld.month - 1).toNat + 1 = ld.month.toNat + 1 - 1 by omega]
      omega
  · obtain ⟨hp, hm⟩ := hil hb
    simp only [hb, eq_self_iff_true, true_and, if_true]
    rw [if_neg (by omega : ¬(0 < row.leap ∧ row.leap ≤ (((ld.month - 1).toNat : Nat) : Int)))]
    rw [if_pos ⟨hp, hm⟩]
    have hstep := prefixLen_succ_of row.mask (show 1 ≤ ld.month.toNat by omega)
    rw [show (ld.month - 1).toNat + 0 = ld.month.toNat - 1 by omega,
      show ld.month.toNat + 1 - 1 = ld.month.toNat by omega,
      show row.leap.toNat = ld.month.toNat by omega]
    omega

theorem getRow_y {t : List LunarRow} {year : Int} {row : LunarRow}
    (h : getRow t year = some row) : row.y = year := by
  unfold getRow at h
  have hp := List.find?_some h
  simpa using hp

theorem getRow_mem {t : List LunarRow} {year : Int} {row : LunarRow}
    (h : getRow t year = some row) : row ∈ t := by
  unfold getRow at h
  have hp := List.mem_of_find?_eq_some h
  simpa using hp

theorem prefixLen_interval_uniq {mask : Nat} {ds : Int} {i j : Nat}
    (hi : 1 ≤ i) (hj : 1 ≤ j)
    (h1 : prefixLen mask (i - 1) ≤ ds) (h2 : ds < prefixLen mask i)
    (h3 : prefixLen mask (j - 1) ≤ ds) (h4 : ds < prefixLen mask j) : i = j := by
  rcases lt_trichotomy i j with hlt | heq | hgt
  · exfalso
    have := prefixLen_mono mask (show i ≤ j - 1 by omega)
    omega
  · exact heq
  · exfalso
    have := prefixLen_mono mask (show j ≤ i - 1 by omega)
    omega

theorem findLunarMonthDay_ok {t : List LunarRow} {row : LunarRow} {lunarYear ds : Int}
    (hrow : getRow t lunarYear = some row)
    (hl1 : 0 ≤ row.leap) (hl2 : row.leap ≤ 12)
    (h0 : 0 ≤ ds) (hlt : ds < prefixLen row.mask (totalMonths row.leap)) :
    ∃ (i : Nat) (mo : Int) (il2 : Bool),
      1 ≤ i ∧ i ≤ totalMonths row.leap ∧
      prefixLen row.mask (i - 1) ≤ ds ∧ ds < prefixLen row.mask i ∧
      mapMonthIndex row.leap i = (mo, il2) ∧
      1 ≤ mo ∧ mo ≤ 12 ∧ (il2 = true → 0 < row.leap ∧ mo = row.leap) ∧
      tableIdx row.leap mo il2 = i ∧
      findLunarMonthDay t lunarYear ds =
        .ok ⟨lunarYear, mo, ds - prefixLen row.mask (i - 1) + 1, il2⟩ := by
  have hz : prefixLen row.mask 0 = 0 := rfl
  obtain ⟨i, p1, p2, p3, p4, p5⟩ :=
    findLunarAux_found lunarYear row.leap row.mask ds (totalMonths row.leap) 0
      (by omega) (by simpa using hlt)
  simp only [Nat.zero_add] at p1 p2 p5
  obtain ⟨mo, il2, hmap, q1, q2, q3, q4⟩ := mapMonthIndex_char p1 p2 hl1 hl2
  refine ⟨i, mo, il2, p1, p2, p3, p4, hmap, q1, q2, q3, q4, ?_⟩
  rw [hz] at p5
  unfold findLunarMonthDay
  rw [hrow]
  dsimp only
  rw [p5, hmap]

theorem findLunarAux_year {lunarYear leap : Int} {mask : Nat} {ds : Int} {ld : LunarDate} :
    ∀ (l : List Nat) (accum : Int),
    findLunarAux lunarYear leap mask ds l accum = some ld → ld.year = lunarYear := by
  intro l
  induction l with
  | nil =>
    intro accum hx
    simp [findLunarAux] at hx
  | cons idx rest ih =>
    intro accum hx
    unfold findLunarAux at hx
    split at hx
    · have := Option.some.inj hx
      rw [← this]
    · exact ih _ hx

theorem findLunarMonthDay_year {t : List LunarRow} {lunarYear ds : Int} {ld : LunarDate}
    (h : findLunarMonthDay t lunarYear ds = .ok ld) : ld.year = lunarYear := by
  unfold findLunarMonthDay at h
  split at h
  · simp at h
  · split at h
    · rename_i heq
      have hld := Except.ok.inj h
      rw [← hld]
      exact findLunarAux_year _ _ heq
    · simp at h

theorem lunar_solar_lunar {t : List LunarRow} {row rowN : LunarRow} {ld : LunarDate}
    (hrow : getRow t ld.year = some row)
    (hrowN : getRow t (ld.year + 1) = some rowN)
    (hwf : wfRow row) (hwfN : wfRow rowN)
    (hinv : sumInv row rowN)
    (hsup : supports t ld.year = true)
    (hsupN : supports t (ld.year + 1) = true)
    (hval : validLunar row ld) :
    ∃ d : CivilDate, lunarToSolar t ld = .ok d ∧ solarToLunar t d = .ok ld := by
  obtain ⟨hm1, hm2, hilv, hd1, hd2⟩ := hval
  have hry : row.y = ld.year := getRow_y hrow
  have hryN : rowN.y = ld.year + 1 := getRow_y hrowN
  obtain ⟨hn1, hn2, hl1, hl2⟩ := hwf
  obtain ⟨hnN1, hnN2, hlN1, hlN2⟩ := hwfN
  rw [hry] at hn2
  rw [hryN] at hnN2
  unfold monthLenOf at hd2
  have hI1 : 1 ≤ tableIdx row.leap ld.month ld.isLeapMonth := tableIdx_ge_one _ hm1
  have hI2 : tableIdx row.leap ld.month ld.isLeapMonth ≤ totalMonths row.leap :=
    tableIdx_le_total _ hm1 hm2 hl1 hl2 hilv
  have hds := lunarDaysSince_eq hl1 hm1 hilv
  have hstepI := prefixLen_succ_of row.mask hI1
  have hmonoI := prefixLen_mono row.mask hI2
  have hpre0 := prefixLen_nonneg row.mask (tableIdx row.leap ld.month ld.isLeapMonth - 1)
  have hds0 : 0 ≤ lunarDaysSince row ld := by omega
  have hdslt : lunarDaysSince row ld < prefixLen row.mask (totalMonths row.leap) := by omega
  have hsum := hinv
  unfold sumInv at hsum
  rw [hry] at hsum
  have hnyY : lunarNYYear ld.year row.ny = ld.year := by
    unfold lunarNYYear
    exact (ymdFromDayOfYear_inYear ld.year row.ny hn1 hn2).1
  have hdec := dayOfYear_dec31 ld.year
  have hsupne : ¬(supports t ld.year = false) := by rw [hsup]; simp
  have hc1 : ¬(row.leap = 0 ∧ ld.isLeapMonth = true) := by
    rintro ⟨hz, hb⟩
    obtain ⟨hp, _⟩ := hilv hb
    omega
  have hc2 : ¬(0 < row.leap ∧ ld.isLeapMonth = true ∧ ld.month ≠ row.leap) := by
    rintro ⟨_, hb, hne⟩
    exact hne (hilv hb).2
  obtain ⟨i, mo, il2, r1, r2, r3, r4, rmap, s1, s2, s3, s4, heq⟩ :=
    findLunarMonthDay_ok hrow hl1 hl2 hds0 hdslt
  have hiI : i = tableIdx row.leap ld.month ld.isLeapMonth :=
    prefixLen_interval_uniq r1 hI1 r3 r4 (by omega) (by omega)
  have hmt := mapMonthIndex_tableIdx hm1 hm2 hl1 hilv
  rw [hiI] at rmap
  rw [rmap] at hmt
  have hmo : mo = ld.month := by
    have := congrArg Prod.fst hmt
    simpa using this
  have hil2 : il2 = ld.isLeapMonth := by
    have := congrArg Prod.snd hmt
    simpa using this
  have hresult : (⟨ld.year, mo, lunarDaysSince row ld -
      prefixLen row.mask (tableIdx row.leap ld.month ld.isLeapMonth - 1) + 1, il2⟩ : LunarDate) = ld := by
    obtain ⟨y0, m0, d0, b0⟩ := ld
    simp only [LunarDate.mk.injEq]
    refine ⟨trivial, by simpa using hmo, by simp only at hds ⊢; omega, by simpa using hil2⟩
  rw [hiI] at heq
  unfold lunarToSolar
  rw [if_neg hsupne, hrow]
  dsimp only
  rw [if_neg hc1, if_neg hc2, hnyY, hdec]
  by_cases hcase : row.ny + lunarDaysSince row ld ≤ daysInYear ld.year
  · rw [if_pos hcase]
    refine ⟨ymdFromDayOfYear ld.year (row.ny + lunarDaysSince row ld), rfl, ?_⟩
    have hin := ymdFromDayOfYear_inYear ld.year (row.ny + lunarDaysSince row ld)
      (by omega) hcase
    unfold solarToLunar
    rw [hin.1, hin.2]
    rw [if_neg hsupne, hrow]
    dsimp only
    rw [if_pos (by omega : row.ny ≤ row.ny + lunarDaysSince row ld)]
    rw [show row.ny + lunarDaysSince row ld - row.ny = lunarDaysSince row ld by omega]
    rw [heq, hresult]
  · rw [if_neg hcase]
    refine ⟨ymdFromDayOfYear (ld.year + 1)
      (row.ny + lunarDaysSince row ld - daysInYear ld.year), rfl, ?_⟩
    have hdoyp1 : 1 ≤ row.ny + lunarDaysSince row ld - daysInYear ld.year := by omega
    have hdoypN : row.ny + lunarDaysSince row ld - daysInYear ld.year < rowN.ny := by omega
    have hin := ymdFromDayOfYear_inYear (ld.year + 1)
      (row.ny + lunarDaysSince row ld - daysInYear ld.year) hdoyp1 (by omega)
    unfold solarToLunar
    rw [hin.1, hin.2]
    have hsupneN : ¬(supports t (ld.year + 1) = false) := by rw [hsupN]; simp
    rw [if_neg hsupneN, hrowN]
    dsimp only
    rw [if_neg (by omega : ¬rowN.ny ≤ row.ny + lunarDaysSince row ld - daysInYear ld.year)]
    rw [show ld.year + 1 - 1 = ld.year by omega]
    rw [hrow]
    dsimp only
    rw [hdec]
    rw [show daysInYear ld.year - row.ny +
        (row.ny + lunarDaysSince row ld - daysInYear ld.year) = lunarDaysSince row ld by omega]
    rw [heq, hresult]

theorem ymdFromDayOfYear_dayOfYear_self {d : CivilDate} (hvd : validCivil d) :
    ymdFromDayOfYear d.y (dayOfYear d) = d := by
  have hch := ymdFromDayOfYear_char d.y (dayOfYear d)
  apply toEpochDays_inj hch.1 hvd
  rw [hch.2, toEpochDays_eq d]

theorem solar_lunar_solar {t : List LunarRow} {rowP row rowN : LunarRow} {d : CivilDate}
    (hrow : getRow t d.y = some row)
    (hrowP : getRow t (d.y - 1) = some rowP)
    (hrowN : getRow t (d.y + 1) = some rowN)
    (hwfP : wfRow rowP) (hwf : wfRow row) (hwfN : wfRow rowN)
    (hinvP : sumInv rowP row) (hinv : sumInv row rowN)
    (hsup : supports t d.y = true) (hsupP : supports t (d.y - 1) = true)
    (hvd : validCivil d) :
    ∃ ld : LunarDate, solarToLunar t d = .ok ld ∧ lunarToSolar t ld = .ok d := by
  have hdoy := validCivil_dayOfYear_bounds hvd
  have hry : row.y = d.y := getRow_y hrow
  have hryP : rowP.y = d.y - 1 := getRow_y hrowP
  have hryN : rowN.y = d.y + 1 := getRow_y hrowN
  obtain ⟨hn1, hn2, hl1, hl2⟩ := hwf
  obtain ⟨hnP1, hnP2, hlP1, hlP2⟩ := hwfP
  obtain ⟨hnN1, hnN2, hlN1, hlN2⟩ := hwfN
  rw [hry] at hn2
  rw [hryP] at hnP2
  rw [hryN] at hnN2
  have hsum := hinv
  unfold sumInv at hsum
  rw [hry] at hsum
  have hsumP := hinvP
  unfold sumInv at hsumP
  rw [hryP] at hsumP
  have hsupne : ¬(supports t d.y = false) := by rw [hsup]; simp
  have hsupneP : ¬(supports t (d.y - 1) = false) := by rw [hsupP]; simp
  unfold solarToLunar
  rw [if_neg hsupne, hrow]
  dsimp only
  by_cases hge : row.ny ≤ dayOfYear d
  · rw [if_pos hge]
    have hn0 : 0 ≤ dayOfYear d - row.ny := by omega
    have hnlt : dayOfYear d - row.ny < prefixLen row.mask (totalMonths row.leap) := by omega
    obtain ⟨i, mo, il2, r1, r2, r3, r4, rmap, s1, s2, s3, s4, heq⟩ :=
      findLunarMonthDay_ok hrow hl1 hl2 hn0 hnlt
    refine ⟨⟨d.y, mo, dayOfYear d - row.ny - prefixLen row.mask (i - 1) + 1, il2⟩, heq, ?_⟩
    unfold lunarToSolar
    dsimp only
    rw [if_neg hsupne, hrow]
    dsimp only
    have hc1 : ¬(row.leap = 0 ∧ il2 = true) := by
      rintro ⟨hz, hb⟩
      obtain ⟨hp, _⟩ := s3 hb
      omega
    have hc2 : ¬(0 < row.leap ∧ il2 = true ∧ mo ≠ row.leap) := by
      rintro ⟨_, hb, hne⟩
      exact hne (s3 hb).2
    rw [if_neg hc1, if_neg hc2]
    have hds := @lunarDaysSince_eq row
      ⟨d.y, mo, dayOfYear d - row.ny - prefixLen row.mask (i - 1) + 1, il2⟩
      hl1 (by dsimp only; omega) (by dsimp only; exact s3)
    dsimp only at hds
    rw [s4] at hds
    have hnyY : lunarNYYear d.y row.ny = d.y := by
      unfold lunarNYYear
      exact (ymdFromDayOfYear_inYear d.y row.ny hn1 hn2).1
    rw [hds, hnyY, dayOfYear_dec31 d.y]
    rw [if_pos (by omega :
      row.ny + (prefixLen row.mask (i - 1) +
        (dayOfYear d - row.ny - prefixLen row.mask (i - 1) + 1) - 1) ≤ daysInYear d.y)]
    rw [show row.ny + (prefixLen row.mask (i - 1) +
        (dayOfYear d - row.ny - prefixLen row.mask (i - 1) + 1) - 1) = dayOfYear d by omega]
    rw [ymdFromDayOfYear_dayOfYear_self hvd]
  · rw [if_neg hge, hrowP]
    dsimp only
    rw [dayOfYear_dec31 (d.y - 1)]
    have hn0 : 0 ≤ daysInYear (d.y - 1) - rowP.ny + dayOfYear d := by omega
    have hnlt : daysInYear (d.y - 1) - rowP.ny + dayOfYear d <
        prefixLen rowP.mask (totalMonths rowP.leap) := by omega
    obtain ⟨i, mo, il2, r1, r2, r3, r4, rmap, s1, s2, s3, s4, heq⟩ :=
      findLunarMonthDay_ok hrowP hlP1 hlP2 hn0 hnlt
    refine ⟨⟨d.y - 1, mo, daysInYear (d.y - 1) - rowP.ny + dayOfYear d -
      prefixLen rowP.mask (i - 1) + 1, il2⟩, heq, ?_⟩
    unfold lunarToSolar
    dsimp only
    rw [if_neg hsupneP, hrowP]
    dsimp only
    have hc1 : ¬(rowP.leap = 0 ∧ il2 = true) := by
      rintro ⟨hz, hb⟩
      obtain ⟨hp, _⟩ := s3 hb
      omega
    have hc2 : ¬(0 < rowP.leap ∧ il2 = true ∧ mo ≠ rowP.leap) := by
      rintro ⟨_, hb, hne⟩
      exact hne (s3 hb).2
    rw [if_neg hc1, if_neg hc2]
    have hds := @lunarDaysSince_eq rowP
      ⟨d.y - 1, mo, daysInYear (d.y - 1) - rowP.ny + dayOfYear d -
        prefixLen rowP.mask (i - 1) + 1, il2⟩
      hlP1 (by dsimp only; omega) (by dsimp only; exact s3)
    dsimp only at hds
    rw [s4] at hds
    have hnyY : lunarNYYear (d.y - 1) rowP.ny = d.y - 1 := by
      unfold lunarNYYear
      exact (ymdFromDayOfYear_inYear (d.y - 1) rowP.ny hnP1 hnP2).1
    rw [hds, hnyY, dayOfYear_dec31 (d.y - 1)]
    rw [if_neg (by omega :
      ¬rowP.ny + (prefixLen rowP.mask (i - 1) +
        (daysInYear (d.y - 1) - rowP.ny + dayOfYear d - prefixLen rowP.mask (i - 1) + 1) - 1) ≤
        daysInYear (d.y - 1))]
    rw [show rowP.ny + (prefixLen rowP.mask (i - 1) +
        (daysInYear (d.y - 1) - rowP.ny + dayOfYear d - prefixLen rowP.mask (i - 1) + 1) - 1) -
        daysInYear (d.y - 1) = dayOfYear d by omega]
    rw [show d.y - 1 + 1 = d.y by omega]
    rw [ymdFromDayOfYear_dayOfYear_self hvd]

theorem findLunarMonthDay_ok_inv {t : List LunarRow} {row : LunarRow}
    {lunarYear ds : Int} {ld : LunarDate}
    (hrow : getRow t lunarYear = some row)
    (hl1 : 0 ≤ row.leap) (hl2 : row.leap ≤ 12) (h0 : 0 ≤ ds)
    (h : findLunarMonthDay t lunarYear ds = .ok ld) :
    validLunar row ld ∧ ld.day ≤ 30 ∧ ld.year = lunarYear := by
  by_cases hlt : ds < prefixLen row.mask (totalMonths row.leap)
  · obtain ⟨i, mo, il2, r1, r2, r3, r4, rmap, s1, s2, s3, s4, heq⟩ :=
      findLunarMonthDay_ok hrow hl1 hl2 h0 hlt
    rw [h] at heq
    have hld := Except.ok.inj heq
    subst hld
    have hstep := prefixLen_succ_of row.mask r1
    have hlen := monthLen_bounds row.mask i
    refine ⟨⟨s1, s2, s3, by dsimp only; omega, ?_⟩, by dsimp only; omega, rfl⟩
    unfold monthLenOf
    dsimp only
    rw [s4]
    omega
  · exfalso
    unfold findLunarMonthDay at h
    rw [hrow] at h
    dsimp only at h
    have hnone := findLunarAux_none lunarYear row.leap row.mask ds (totalMonths row.leap) 0
      (by simpa using (by omega : prefixLen row.mask (totalMonths row.leap) ≤ ds))
    have hz : prefixLen row.mask 0 = 0 := rfl
    rw [hz] at hnone
    simp only [Nat.zero_add] at hnone
    rw [hnone] at h
    simp at h

/-- Witness rows: a small internally consistent lunar table.  Year 2000 has
no leap month and alternating 30/29 months (mask 0x555, total 354 days,
0x555 = 0b0101_0101_0101); year 2001 has a leap sixth month (mask 0x1555,
13 months, total 384 days); the ny values satisfy the length-sum
invariant. -/
def witnessRowA : LunarRow := ⟨2000, 40, 0, 0x555⟩

/-- Witness row for 2001 (leap month 6). -/
def witnessRowB : LunarRow := ⟨2001, 28, 6, 0x1555⟩

/-- Witness row for 2002. -/
def witnessRowC : LunarRow := ⟨2002, 47, 0, 0x555⟩

/-- Witness lunar table with contiguous years 2000..2002. -/
def witnessTable : List LunarRow := [witnessRowA, witnessRowB, witnessRowC]

/-- Witness table with a missing interior year (2001 absent). -/
def gapTable : List LunarRow := [⟨2000, 40, 0, 0x555⟩, ⟨2002, 47, 0, 0x555⟩]

/-- C1: the spec requires lunarToSolar to raise InvalidDateError when day
exceeds the encoded month length; the source performs no such check.  At
the failing input {year 2000, month 2, day 30, isLeapMonth false} on a
table whose month 2 has 29 days, lunarToSolar silently returns 2000-04-08,
the very date of lunar 3/1, and solarToLunar maps that date back to 3/1 —
the aliasing the spec calls out. -/
theorem c1_lunarToSolar_day_overflow_aliases :
    monthLenOf witnessRowA 2 false = 29 ∧
    lunarToSolar witnessTable ⟨2000, 2, 30, false⟩ = .ok ⟨2000, 4, 8⟩ ∧
    lunarToSolar witnessTable ⟨2000, 3, 1, false⟩ = .ok ⟨2000, 4, 8⟩ ∧
    solarToLunar witnessTable ⟨2000, 4, 8⟩ = .ok ⟨2000, 3, 1, false⟩ := by
  decide

/-- C2: round-trip identity of the conversion engine.  For a table whose
rows are well formed and satisfy the §3 length-sum invariant, with the
adjacent rows present and supported: every valid lunar date converts to a
solar date that converts back to it, and every valid solar date converts
to a lunar date that converts back to it. -/
theorem c2_conversion_roundtrip :
    (∀ (t : List LunarRow) (row rowN : LunarRow) (ld : LunarDate),
      getRow t ld.year = some row → getRow t (ld.year + 1) = some rowN →
      wfRow row → wfRow rowN → sumInv row rowN →
      supports t ld.year = true → supports t (ld.year + 1) = true →
      validLunar row ld →
      ∃ d : CivilDate, lunarToSolar t ld = .ok d ∧ solarToLunar t d = .ok ld) ∧
    (∀ (t : List LunarRow) (rowP row rowN : LunarRow) (d : CivilDate),
      getRow t d.y = some row → getRow t (d.y - 1) = some rowP →
      getRow t (d.y + 1) = some rowN →
      wfRow rowP → wfRow row → wfRow rowN →
      sumInv rowP row → sumInv row rowN →
      supports t d.y = true → supports t (d.y - 1) = true →
      validCivil d →
      ∃ ld : LunarDate, solarToLunar t d = .ok ld ∧ lunarToSolar t ld = .ok d) :=
  ⟨fun _ _ _ _ h1 h2 h3 h4 h5 h6 h7 h8 => lunar_solar_lunar h1 h2 h3 h4 h5 h6 h7 h8,
   fun _ _ _ _ _ h1 h2 h3 h4 h5 h6 h7 h8 h9 h10 h11 =>
     solar_lunar_solar h1 h2 h3 h4 h5 h6 h7 h8 h9 h10 h11⟩

/-- Witness for C2 on the concrete witness table: lunar 2000/5/10 and solar
2001-02-14. -/
theorem c2_conversion_roundtrip_witness :
    (∃ d : CivilDate, lunarToSolar witnessTable ⟨2000, 5, 10, false⟩ = .ok d ∧
      solarToLunar witnessTable d = .ok ⟨2000, 5, 10, false⟩) ∧
    (∃ ld : LunarDate, solarToLunar witnessTable ⟨2001, 2, 14⟩ = .ok ld ∧
      lunarToSolar witnessTable ld = .ok ⟨2001, 2, 14⟩) := by
  constructor
  · exact c2_conversion_roundtrip.1 witnessTable witnessRowA witnessRowB ⟨2000, 5, 10, false⟩
      (by decide) (by decide) (by decide) (by decide) (by decide) (by decide) (by decide)
      (by decide)
  · exact c2_conversion_roundtrip.2 witnessTable witnessRowA witnessRowB witnessRowC
      ⟨2001, 2, 14⟩ (by decide) (by decide) (by decide) (by decide) (by decide) (by decide)
      (by decide) (by decide) (by decide) (by decide) (by decide)

/-- C3: year selection of solarToLunar.  With the solar year's row present:
when solarDOY is at least the row's ny, the result is
findLunarMonthDay(solarYear, solarDOY - ny) and any returned lunar year
equals the solar year; otherwise the previous year's row is fetched
(MissingDataError when absent) and the result is
findLunarMonthDay(solarYear - 1, dayOfYear(Dec 31 of solarYear-1) -
rowPrev.ny + solarDOY) with lunar year solarYear - 1. -/
theorem c3_solarToLunar_year_selection :
    ∀ (t : List LunarRow) (row : LunarRow) (d : CivilDate),
      supports t d.y = true → getRow t d.y = some row →
      ((row.ny ≤ dayOfYear d →
        solarToLunar t d = findLunarMonthDay t d.y (dayOfYear d - row.ny) ∧
        (∀ ld, solarToLunar t d = .ok ld → ld.year = d.y)) ∧
       (dayOfYear d < row.ny →
        (getRow t (d.y - 1) = none → solarToLunar t d = .error .missingAdjacent) ∧
        (∀ rowPrev, getRow t (d.y - 1) = some rowPrev →
          solarToLunar t d = findLunarMonthDay t (d.y - 1)
            (dayOfYear ⟨d.y - 1, 12, 31⟩ - rowPrev.ny + dayOfYear d) ∧
          (∀ ld, solarToLunar t d = .ok ld → ld.year = d.y - 1)))) := by
  intro t row d hsup hrow
  have hsupne : ¬(supports t d.y = false) := by rw [hsup]; simp
  constructor
  · intro hge
    have hform : solarToLunar t d = findLunarMonthDay t d.y (dayOfYear d - row.ny) := by
      unfold solarToLunar
      rw [if_neg hsupne, hrow]
      dsimp only
      rw [if_pos hge]
    refine ⟨hform, ?_⟩
    intro ld hok
    rw [hform] at hok
    exact findLunarMonthDay_year hok
  · intro hlt
    constructor
    · intro hnone
      unfold solarToLunar
      rw [if_neg hsupne, hrow]
      dsimp only
      rw [if_neg (by omega : ¬row.ny ≤ dayOfYear d), hnone]
    · intro rowPrev hprev
      have hform : solarToLunar t d = findLunarMonthDay t (d.y - 1)
          (dayOfYear ⟨d.y - 1, 12, 31⟩ - rowPrev.ny + dayOfYear d) := by
        unfold solarToLunar
        rw [if_neg hsupne, hrow]
        dsimp only
        rw [if_neg (by omega : ¬row.ny ≤ dayOfYear d), hprev]
      refine ⟨hform, ?_⟩
      intro ld hok
      rw [hform] at hok
      exact findLunarMonthDay_year hok

/-- Witness for C3: both branches on the witness table (2000-06-15 is on or
after the lunar new year of 2000; 2001-01-18 precedes the lunar new year of
2001), plus the MissingDataError case on a one-row table. -/
theorem c3_solarToLunar_year_selection_witness :
    (solarToLunar witnessTable ⟨2000, 6, 15⟩ =
      findLunarMonthDay witnessTable 2000 (dayOfYear ⟨2000, 6, 15⟩ - 40)) ∧
    (solarToLunar witnessTable ⟨2001, 1, 18⟩ =
      findLunarMonthDay witnessTable 2000
        (dayOfYear ⟨2000, 12, 31⟩ - 40 + dayOfYear ⟨2001, 1, 18⟩)) ∧
    (solarToLunar [witnessRowA] ⟨2000, 1, 5⟩ = .error .missingAdjacent) := by
  refine ⟨?_, ?_, ?_⟩
  · have h := (c3_solarToLunar_year_selection witnessTable witnessRowA ⟨2000, 6, 15⟩
      (by decide) (by decide)).1 (by decide)
    exact h.1
  · have h := ((c3_solarToLunar_year_selection witnessTable witnessRowB ⟨2001, 1, 18⟩
      (by decide) (by decide)).2 (by decide)).2 witnessRowA (by decide)
    exact h.1
  · exact ((c3_solarToLunar_year_selection [witnessRowA] witnessRowA ⟨2000, 1, 5⟩
      (by decide) (by decide)).2 (by decide)).1 (by decide)

/-- C9: with the implicit precondition that the constructor's data has a row
for every year between its minimum and maximum, supports(year) = true
implies the dataMap lookup succeeds, so the non-null assertions in
solarToLunar/lunarToSolar cannot dereference a missing row; and the
precondition is genuinely needed: on a table with an interior gap year,
supports still answers true while the row is absent. -/
theorem c9_supports_implies_row :
    (∀ (t : List LunarRow) (y : Int),
      (∀ z : Int, minYearOf t ≤ z → z ≤ maxYearOf t → ∃ r ∈ t, r.y = z) →
      supports t y = true → (getRow t y).isSome = true) ∧
    (supports gapTable 2001 = true ∧ getRow gapTable 2001 = none) := by
  constructor
  · intro t y hcont hsup
    unfold supports at hsup
    simp only [Bool.and_eq_true, Bool.not_eq_true', decide_eq_true_eq] at hsup
    obtain ⟨⟨hne, hmin⟩, hmax⟩ := hsup
    obtain ⟨r, hmem, hry⟩ := hcont y hmin hmax
    unfold getRow
    rw [List.find?_isSome]
    exact ⟨r, List.mem_reverse.mpr hmem, by simp [hry]⟩
  · exact ⟨by decide, by decide⟩

/-- Witness for C9: on the contiguous witness table, supports 2001 holds and
the row lookup indeed succeeds via the theorem. -/
theorem c9_supports_implies_row_witness :
    (getRow witnessTable 2001).isSome = true := by
  apply c9_supports_implies_row.1 witnessTable 2001 ?_ (by decide)
  intro z hz1 hz2
  have h1 : minYearOf witnessTable = 2000 := by decide
  have h2 : maxYearOf witnessTable = 2002 := by decide
  rw [h1] at hz1
  rw [h2] at hz2
  have hz : z = 2000 ∨ z = 2001 ∨ z = 2002 := by omega
  rcases hz with rfl | rfl | rfl
  · exact ⟨witnessRowA, by decide, by decide⟩
  · exact ⟨witnessRowB, by decide, by decide⟩
  · exact ⟨witnessRowC, by decide, by decide⟩

/-- C10: whenever solarToLunar returns a lunar date on a table of
well-formed rows, the result is structurally valid: month in 1..12, day in
1..30 never exceeding the found month's encoded length, and the leap flag
set only for the row's leap-month position (validLunar packages exactly
these conditions against the lunar year's row). -/
theorem c10_solarToLunar_structural_validity :
    ∀ (t : List LunarRow) (d : CivilDate) (ld : LunarDate),
      (∀ r ∈ t, wfRow r) → validCivil d →
      solarToLunar t d = .ok ld →
      1 ≤ ld.month ∧ ld.month ≤ 12 ∧ 1 ≤ ld.day ∧ ld.day ≤ 30 ∧
      ∃ row, getRow t ld.year = some row ∧ validLunar row ld := by
  intro t d ld hall hvd h
  have hdoy := validCivil_dayOfYear_bounds hvd
  unfold solarToLunar at h
  split at h
  · simp at h
  · rename_i hsupOK
    rcases hrow : getRow t d.y with _ | row
    · rw [hrow] at h
      simp at h
    · rw [hrow] at h
      dsimp only at h
      have hwf := hall row (getRow_mem hrow)
      obtain ⟨hn1, hn2, hl1, hl2⟩ := hwf
      split at h
      · rename_i hge
        obtain ⟨hvl, hd30, hyr⟩ :=
          findLunarMonthDay_ok_inv hrow hl1 hl2 (by omega) h
        obtain ⟨q1, q2, q3, q4, q5⟩ := hvl
        refine ⟨q1, q2, q4, hd30, row, ?_, ⟨q1, q2, q3, q4, q5⟩⟩
        rw [hyr]
        exact hrow
      · rename_i hlt
        rcases hprev : getRow t (d.y - 1) with _ | rowPrev
        · rw [hprev] at h
          simp at h
        · rw [hprev] at h
          dsimp only at h
          have hwfP := hall rowPrev (getRow_mem hprev)
          obtain ⟨hnP1, hnP2, hlP1, hlP2⟩ := hwfP
          have hryP : rowPrev.y = d.y - 1 := getRow_y hprev
          rw [hryP] at hnP2
          rw [dayOfYear_dec31 (d.y - 1)] at h
          obtain ⟨hvl, hd30, hyr⟩ :=
            findLunarMonthDay_ok_inv hprev hlP1 hlP2 (by omega) h
          obtain ⟨q1, q2, q3, q4, q5⟩ := hvl
          refine ⟨q1, q2, q4, hd30, rowPrev, ?_, ⟨q1, q2, q3, q4, q5⟩⟩
          rw [hyr]
          exact hprev

/-- Witness for C10 at solar 2001-07-28 on the witness table (a date inside
the leap sixth month of lunar 2001). -/
theorem c10_solarToLunar_structural_validity_witness :
    1 ≤ (5 : Int) ∧ (5 : Int) ≤ 12 ∧ 1 ≤ (1 : Int) ∧ (1 : Int) ≤ 30 ∧
    ∃ row, getRow witnessTable (2001 : Int) = some row ∧
      validLunar row ⟨2001, 6, 5, true⟩ := by
  have h := c10_solarToLunar_structural_validity witnessTable ⟨2001, 7, 28⟩ ⟨2001, 6, 5, true⟩
    (by decide) (by decide) (by decide)
  exact ⟨by omega, by omega, by omega, by omega, h.2.2.2.2⟩

/-!
Holiday rule engine, src/providers/holiday/json.ts.  A lunar provider is
the toSolar closure of TableLunarProvider: it returns none where the
algorithm throws (the provider catches and returns null).
-/

/-- HolidayKind from src/types.ts. -/
inductive HolidayKind
  | STATUTORY
  | SUBSTITUTE
  | TEMPORARY
  | LOCAL
deriving DecidableEq, Repr

/-- The variant tag PRE | DAY | POST of a holiday item. -/
inductive HolidayVariant
  | PRE
  | DAY
  | POST
deriving DecidableEq, Repr

/-- HolidayItem from src/types.ts (date as parsed CivilDate). -/
structure HolidayItem where
  date : CivilDate
  id : String
  kind : HolidayKind
  name : String
  nameEn : Option String
  variant : Option HolidayVariant
  substituteFor : Option CivilDate
deriving DecidableEq, Repr

/-- HolidayRule, the tagged union of json.ts (pads resolved with ?? 0). -/
inductive HolidayRule
  | fixedSolar (month day : Int)
  | fixedLunar (month day padBefore padAfter : Int)
deriving DecidableEq, Repr

/-- One entry of the rules array of json.ts. -/
structure HolidayRuleData where
  id : String
  kind : HolidayKind
  nameKo : String
  nameEn : Option String
  rule : HolidayRule
deriving DecidableEq, Repr

/-- toSolar of TableLunarProvider: lunarToSolar with the thrown error
caught and turned into null. -/
def tableToSolar (t : List LunarRow) (ld : LunarDate) : Option CivilDate :=
  (lunarToSolar t ld).toOption

/-- JsonHolidayProvider.processRule.  The lunar provider is optional; a
missing provider or a failed conversion skips the rule with a logged
warning (console output is not modelled) and yields no items. -/
def processRule (lp : Option (LunarDate → Option CivilDate)) (year : Int)
    (rd : HolidayRuleData) : List HolidayItem :=
  match rd.rule with
  | .fixedSolar m dd =>
    [⟨⟨year, m, dd⟩, rd.id, rd.kind, rd.nameKo, rd.nameEn, some .DAY, none⟩]
  | .fixedLunar m dd b a =>
    match lp with
    | none => []
    | some toSolar =>
      match toSolar ⟨year, m, dd, false⟩ with
      | none => []
      | some base =>
        (List.range (b + a + 1).toNat).map (fun i =>
          ⟨addDays base (-b + (i : Int)), rd.id, rd.kind, rd.nameKo, rd.nameEn,
           some (if (-b + (i : Int)) < 0 then HolidayVariant.PRE
                 else if 0 < (-b + (i : Int)) then HolidayVariant.POST
                 else HolidayVariant.DAY), none⟩)

/-- Comparator of the final sort of getBaseHolidays
(a.date.localeCompare(b.date) on canonical YMD strings). -/
def holidayLE (x y : HolidayItem) : Bool :=
  decide (dateLE x.date y.date)

/-- JsonHolidayProvider.getBaseHolidays (the per-year memoization is a pure
cache of this function and is not modelled). -/
def getBaseHolidays (lp : Option (LunarDate → Option CivilDate)) (year : Int)
    (rules : List HolidayRuleData) : List HolidayItem :=
  (rules.flatMap (processRule lp year)).mergeSort holidayLE

theorem holidayLE_trans (a b c : HolidayItem) :
    holidayLE a b = true → holidayLE b c = true → holidayLE a c = true := by
  unfold holidayLE dateLE
  simp only [decide_eq_true_eq]
  omega

theorem holidayLE_total (a b : HolidayItem) : (holidayLE a b || holidayLE b a) = true := by
  unfold holidayLE dateLE
  simp only [Bool.or_eq_true, decide_eq_true_eq]
  omega

/-- C7: a FixedLunar rule whose lunar-to-solar conversion fails (no
provider, unsupported year or missing table data) contributes nothing:
expansion of the rule list with that rule equals expansion without it, so
the year-level result still returns with the items of all remaining rules,
and the returned list is sorted ascending by date.  getBaseHolidays is a
total function, so no failure of one rule can abort the expansion. -/
theorem c7_failed_lunar_rule_skipped :
    ∀ (lp : Option (LunarDate → Option CivilDate)) (year : Int)
      (pre post : List HolidayRuleData) (rd : HolidayRuleData) (m dd b a : Int),
      rd.rule = .fixedLunar m dd b a →
      (lp = none ∨ ∃ f, lp = some f ∧ f ⟨year, m, dd, false⟩ = none) →
      getBaseHolidays lp year (pre ++ rd :: post) = getBaseHolidays lp year (pre ++ post) ∧
      List.Pairwise (fun x y : HolidayItem => dateLE x.date y.date)
        (getBaseHolidays lp year (pre ++ rd :: post)) := by
  intro lp year pre post rd m dd b a hrule hfail
  have hskip : processRule lp year rd = [] := by
    unfold processRule
    rw [hrule]
    rcases hfail with rfl | ⟨f, rfl, hf⟩
    · rfl
    · dsimp only
      rw [hf]
  constructor
  · unfold getBaseHolidays
    rw [List.flatMap_append, List.flatMap_cons, hskip, List.flatMap_append]
    simp
  · have hs := @List.sorted_mergeSort HolidayItem holidayLE holidayLE_trans holidayLE_total
      ((pre ++ rd :: post).flatMap (processRule lp year))
    unfold getBaseHolidays
    have hmono : ∀ x y : HolidayItem, holidayLE x y = true → dateLE x.date y.date := by
      intro x y h
      unfold holidayLE at h
      simpa using h
    exact List.Pairwise.imp (fun hxy => hmono _ _ hxy) hs

/-- Witness for C7: a solar New Year rule plus a Seollal-like lunar rule in
an unsupported year (2005 is outside the witness table); the lunar rule is
skipped and the solar item alone survives, sorted. -/
theorem c7_failed_lunar_rule_skipped_witness :
    getBaseHolidays (some (tableToSolar witnessTable)) 2005
      [⟨"KR_NEWYEAR", .STATUTORY, "신정", some "New Year", .fixedSolar 1 1⟩,
       ⟨"KR_SEOLLAL", .STATUTORY, "설날", some "Seollal", .fixedLunar 1 1 1 1⟩] =
      getBaseHolidays (some (tableToSolar witnessTable)) 2005
        [⟨"KR_NEWYEAR", .STATUTORY, "신정", some "New Year", .fixedSolar 1 1⟩] ∧
    List.Pairwise (fun x y : HolidayItem => dateLE x.date y.date)
      (getBaseHolidays (some (tableToSolar witnessTable)) 2005
        [⟨"KR_NEWYEAR", .STATUTORY, "신정", some "New Year", .fixedSolar 1 1⟩,
         ⟨"KR_SEOLLAL", .STATUTORY, "설날", some "Seollal", .fixedLunar 1 1 1 1⟩]) := by
  have h := c7_failed_lunar_rule_skipped (some (tableToSolar witnessTable)) 2005
    [⟨"KR_NEWYEAR", .STATUTORY, "신정", some "New Year", .fixedSolar 1 1⟩] []
    ⟨"KR_SEOLLAL", .STATUTORY, "설날", some "Seollal", .fixedLunar 1 1 1 1⟩
    1 1 1 1 rfl (Or.inr ⟨tableToSolar witnessTable, rfl, by decide⟩)
  exact h

/-!
Korean substitute holiday policy, KoreanSubstitutePolicy.apply (the variant
with the weekend, collision and multi-day-festival rules and the 10-attempt
search).  The JS Map of eligible ids keeps the last entry per id; the
indexOf-based collision test uses object identity, so a base holiday is the
secondary occupant of its date exactly when an earlier element of the input
list carries the same date — the loop below therefore carries the processed
prefix.  The per-date grouping map adds no further information:
sameDay.length > 1 is implied whenever indexOf > 0.
-/

/-- Lookup in the Map built from policyData.eligible (last entry wins). -/
def lookupEligible (elig : List (String × Int)) (hid : String) : Option Int :=
  (elig.reverse.find? (fun p => p.1 == hid)).map (fun p => p.2)

/-- The needsSubstitute computation of the loop body (rules 1..3), given the
already processed prefix of baseHolidays. -/
def needsSubstituteCode (prev : List HolidayItem) (h : HolidayItem) : Bool :=
  let ns1 := if (dayOfWeek h.date == 0 || dayOfWeek h.date == 6) &&
      (h.variant == some HolidayVariant.DAY) then true else false
  let ns2 := if prev.any (fun p => p.date == h.date) &&
      (h.variant == some HolidayVariant.DAY) then true else ns1
  if (h.id == "KR_SEOLLAL" || h.id == "KR_CHUSEOK") &&
      (h.variant == some HolidayVariant.DAY) then
    (if dayOfWeek (addDays h.date (-1)) == 0 || dayOfWeek h.date == 0 ||
        dayOfWeek (addDays h.date 1) == 0 then true
     else ns2)
  else ns2

/-- The while loop searching for the substitute date: up to maxAttempts = 10
candidates, advancing one day at a time. -/
def findSubstituteDate (occ : List CivilDate) : CivilDate → Nat → Option CivilDate
  | _, 0 => none
  | c, fuel + 1 =>
    if !(dayOfWeek c == 0 || dayOfWeek c == 6) && !(occ.contains c) then some c
    else findSubstituteDate occ (addDays c 1) fuel

/-- The substitute item pushed by the loop (no variant field is set). -/
def mkSubstituteItem (c forDate : CivilDate) : HolidayItem :=
  ⟨c, "KR_SUBSTITUTE", .SUBSTITUTE, "대체공휴일", some "Substitute Holiday", none, some forDate⟩

/-- One iteration of the main loop of apply: eligibility gate
(`!fromYear || year < fromYear` skips a missing or zero entry and future
fromYear), needsSubstitute, then the bounded search; a found date is pushed
and immediately added to the occupied set, exhaustion leaves the state
unchanged (the warning is console output). -/
def applyStep (elig : List (String × Int)) (year : Int)
    (st : List HolidayItem × List CivilDate) (prev : List HolidayItem)
    (h : HolidayItem) : List HolidayItem × List CivilDate :=
  match lookupEligible elig h.id with
  | none => st
  | some fromYear =>
    if fromYear = 0 then st
    else if year < fromYear then st
    else if needsSubstituteCode prev h = true then
      match findSubstituteDate st.2 (addDays h.date 1) 10 with
      | some c => (st.1 ++ [mkSubstituteItem c h.date], st.2 ++ [c])
      | none => st
    else st

/-- The main loop of apply over the base holidays, carrying the processed
prefix (for the identity-based collision test) and the state (substitutes,
occupied dates). -/
def applyAux (elig : List (String × Int)) (year : Int) :
    List HolidayItem → List HolidayItem → List HolidayItem × List CivilDate →
    List HolidayItem × List CivilDate
  | _, [], st => st
  | prev, h :: rest, st => applyAux elig year (prev ++ [h]) rest (applyStep elig year st prev h)

/-- KoreanSubstitutePolicy.apply: the occupied set starts as all base
holiday dates; the result is the accumulated substitute list. -/
def applyPolicy (elig : List (String × Int)) (year : Int)
    (baseHolidays : List HolidayItem) : List HolidayItem :=
  (applyAux elig year [] baseHolidays ([], baseHolidays.map (fun h => h.date))).1

/-- Candidate scan the claim describes: the first of the ten dates
date+1 .. date+10 that is neither Saturday/Sunday nor occupied. -/
def substituteSearchSpec (occ : List CivilDate) (d : CivilDate) : Option CivilDate :=
  ((List.range 10).map (fun (i : Nat) => addDays d ((i : Int) + 1))).find?
    (fun c => !(dayOfWeek c == 0 || dayOfWeek c == 6) && !(occ.contains c))

theorem addDays_addDays (c : CivilDate) (a b : Int) :
    addDays (addDays c a) b = addDays c (a + b) := by
  apply toEpochDays_inj (addDays_char (addDays c a) b).1 (addDays_char c (a + b)).1
  rw [(addDays_char (addDays c a) b).2, (addDays_char c a).2, (addDays_char c (a + b)).2]
  ring

theorem addDays_zero {c : CivilDate} (hv : validCivil c) : addDays c 0 = c := by
  unfold addDays
  rw [add_zero]
  exact ymdFromDayOfYear_dayOfYear_self hv

theorem findSubstituteDate_eq_find (occ : List CivilDate) :
    ∀ (n : Nat) (c : CivilDate), validCivil c →
    findSubstituteDate occ c n =
      ((List.range n).map (fun (i : Nat) => addDays c (i : Int))).find?
        (fun x => !(dayOfWeek x == 0 || dayOfWeek x == 6) && !(occ.contains x)) := by
  intro n
  induction n with
  | zero => intro c _; rfl
  | succ m ih =>
    intro c hv
    rw [List.range_succ_eq_map]
    unfold findSubstituteDate
    rw [List.map_cons, List.find?_cons]
    have hc0 : addDays c ((0 : Nat) : Int) = c := by
      rw [show ((0 : Nat) : Int) = 0 by norm_num]
      exact addDays_zero hv
    rw [hc0]
    split
    · rename_i hcond
      rw [hcond]
    · rename_i hcond
      rw [Bool.not_eq_true] at hcond
      rw [hcond]
      rw [ih (addDays c 1) (addDays_char c 1).1]
      rw [List.map_map]
      congr 1
      apply List.map_congr_left
      intro i _
      simp only [Function.comp_apply]
      rw [addDays_addDays]
      congr 1
      push_cast
      ring

/-- C4: the substitute search of apply starts at date+1, advances one day
at a time, examines exactly 10 candidate dates, and selects the first that
is neither a Saturday/Sunday nor an occupied date; on success the selected
date is appended to the substitute list and immediately to the occupied
set, and on exhaustion the holiday is skipped with the state unchanged
(the logged warning is console output; nothing is raised). -/
theorem c4_substitute_search :
    (∀ (occ : List CivilDate) (d : CivilDate),
      findSubstituteDate occ (addDays d 1) 10 = substituteSearchSpec occ d ∧
      ((List.range 10).map (fun (i : Nat) => addDays d ((i : Int) + 1))).length = 10) ∧
    (∀ (elig : List (String × Int)) (year : Int) (subs : List HolidayItem)
        (occ : List CivilDate) (prev : List HolidayItem) (h : HolidayItem) (f : Int),
      lookupEligible elig h.id = some f → f ≠ 0 → f ≤ year →
      needsSubstituteCode prev h = true →
      applyStep elig year (subs, occ) prev h =
        match substituteSearchSpec occ h.date with
        | some c => (subs ++ [mkSubstituteItem c h.date], occ ++ [c])
        | none => (subs, occ)) := by
  have hkey : ∀ (occ : List CivilDate) (d : CivilDate),
      findSubstituteDate occ (addDays d 1) 10 = substituteSearchSpec occ d := by
    intro occ d
    rw [findSubstituteDate_eq_find occ 10 (addDays d 1) (addDays_char d 1).1]
    unfold substituteSearchSpec
    congr 1
    apply List.map_congr_left
    intro i _
    rw [addDays_addDays]
    congr 1
    ring
  constructor
  · intro occ d
    exact ⟨hkey occ d, by simp⟩
  · intro elig year subs occ prev h f hlook hf0 hfy hneed
    unfold applyStep
    rw [hlook]
    dsimp only
    rw [if_neg hf0, if_neg (by omega : ¬year < f), if_pos hneed]
    rw [hkey occ h.date]

/-- Witness for C4 at the Sunday holiday 2024-01-07 (the search and the
apply-step characterisation at a concrete eligible holiday). -/
theorem c4_substitute_search_witness :
    (findSubstituteDate [⟨2024, 1, 7⟩] (addDays ⟨2024, 1, 7⟩ 1) 10 =
      substituteSearchSpec [⟨2024, 1, 7⟩] ⟨2024, 1, 7⟩) ∧
    applyStep [("X", 2015)] 2024 ([], [⟨2024, 1, 7⟩]) []
        ⟨⟨2024, 1, 7⟩, "X", .STATUTORY, "x", none, some .DAY, none⟩ =
      match substituteSearchSpec [⟨2024, 1, 7⟩] ⟨2024, 1, 7⟩ with
      | some c => ([] ++ [mkSubstituteItem c ⟨2024, 1, 7⟩], [⟨2024, 1, 7⟩] ++ [c])
      | none => ([], [⟨2024, 1, 7⟩]) := by
  constructor
  · exact (c4_substitute_search.1 [⟨2024, 1, 7⟩] ⟨2024, 1, 7⟩).1
  · exact c4_substitute_search.2 [("X", 2015)] 2024 [] [⟨2024, 1, 7⟩] []
      ⟨⟨2024, 1, 7⟩, "X", .STATUTORY, "x", none, some .DAY, none⟩ 2015
      (by decide) (by decide) (by decide) (by decide)

theorem needsSubstituteCode_eq (prev : List HolidayItem) (h : HolidayItem) :
    needsSubstituteCode prev h =
      ((dayOfWeek h.date == 0 || dayOfWeek h.date == 6) && (h.variant == some HolidayVariant.DAY)
       || prev.any (fun p => p.date == h.date) && (h.variant == some HolidayVariant.DAY)
       || (h.id == "KR_SEOLLAL" || h.id == "KR_CHUSEOK") && (h.variant == some HolidayVariant.DAY)
          && (dayOfWeek (addDays h.date (-1)) == 0 || dayOfWeek h.date == 0 ||
              dayOfWeek (addDays h.date 1) == 0)) := by
  unfold needsSubstituteCode
  cases hw : (dayOfWeek h.date == 0 || dayOfWeek h.date == 6) <;>
    cases hv : (h.variant == some HolidayVariant.DAY) <;>
    cases ha : prev.any (fun p => p.date == h.date) <;>
    cases hid : (h.id == "KR_SEOLLAL" || h.id == "KR_CHUSEOK") <;>
    cases hd : (dayOfWeek (addDays h.date (-1)) == 0 || dayOfWeek h.date == 0 ||
        dayOfWeek (addDays h.date 1) == 0) <;>
    simp_all

/-- C5: for a base holiday with variant DAY at position i of the input,
needsSubstitute holds exactly under the three spec rules: its date is a
Saturday or Sunday; or at least two base holidays share its exact date and
an earlier-declared one occupies it (the first-declared occupant is exempt);
or its id is one of the 3-day festivals KR_SEOLLAL / KR_CHUSEOK and the
PRE, DAY or POST date falls on Sunday. -/
theorem c5_needs_substitute_rules :
    ∀ (bhs : List HolidayItem) (i : Nat) (h : HolidayItem),
      bhs[i]? = some h → h.variant = some HolidayVariant.DAY →
      (needsSubstituteCode (bhs.take i) h = true ↔
        ((dayOfWeek h.date = 0 ∨ dayOfWeek h.date = 6) ∨
         (2 ≤ (bhs.filter (fun p => p.date == h.date)).length ∧
           ∃ p ∈ bhs.take i, p.date = h.date) ∨
         ((h.id = "KR_SEOLLAL" ∨ h.id = "KR_CHUSEOK") ∧
           (dayOfWeek (addDays h.date (-1)) = 0 ∨ dayOfWeek h.date = 0 ∨
            dayOfWeek (addDays h.date 1) = 0)))) := by
  intro bhs i h hget hvar
  have hi : i < bhs.length := by
    by_contra hge
    rw [List.getElem?_eq_none (by omega)] at hget
    simp at hget
  have hcount : (∃ p ∈ bhs.take i, p.date = h.date) →
      2 ≤ (bhs.filter (fun p => p.date == h.date)).length := by
    rintro ⟨p, hpmem, hpdate⟩
    have hsplit : bhs = bhs.take i ++ bhs.drop i := (List.take_append_drop i bhs).symm
    have hdrop : bhs.drop i = h :: bhs.drop (i + 1) := by
      rw [List.drop_eq_getElem_cons hi]
      congr
      have := List.getElem?_eq_getElem hi
      rw [this] at hget
      exact Option.some.inj hget
    rw [hsplit, List.filter_append, List.length_append, hdrop, List.filter_cons]
    rw [if_pos (by simp)]
    have h1 : 1 ≤ ((bhs.take i).filter (fun p => p.date == h.date)).length := by
      have : p ∈ (bhs.take i).filter (fun p => p.date == h.date) :=
        List.mem_filter.mpr ⟨hpmem, by simp [hpdate]⟩
      have := List.length_pos_of_mem this
      omega
    simp only [List.length_cons]
    omega
  rw [needsSubstituteCode_eq]
  simp only [Bool.or_eq_true, Bool.and_eq_true, beq_iff_eq, List.any_eq_true, hvar,
    decide_eq_true_eq]
  constructor
  · rintro ((⟨hw, _⟩ | ⟨hcol, _⟩) | ⟨⟨hid, _⟩, hsun⟩)
    · exact Or.inl hw
    · obtain ⟨p, hpmem, hpdate⟩ := hcol
      exact Or.inr (Or.inl ⟨hcount ⟨p, hpmem, hpdate⟩, ⟨p, hpmem, hpdate⟩⟩)
    · exact Or.inr (Or.inr ⟨hid, by tauto⟩)
  · rintro (hw | ⟨_, p, hpmem, hpdate⟩ | ⟨hid, hsun⟩)
    · exact Or.inl (Or.inl ⟨hw, trivial⟩)
    · exact Or.inl (Or.inr ⟨⟨p, hpmem, hpdate⟩, trivial⟩)
    · exact Or.inr ⟨⟨hid, trivial⟩, by tauto⟩

/-- Witness for C5: the collision rule at a concrete input — two holidays on
2024-03-01 (a Friday), the second-declared one needs a substitute. -/
theorem c5_needs_substitute_rules_witness :
    needsSubstituteCode
      ([⟨⟨2024, 3, 1⟩, "A", .STATUTORY, "a", none, some .DAY, none⟩,
        ⟨⟨2024, 3, 1⟩, "B", .STATUTORY, "b", none, some .DAY, none⟩].take 1)
      ⟨⟨2024, 3, 1⟩, "B", .STATUTORY, "b", none, some .DAY, none⟩ = true := by
  apply (c5_needs_substitute_rules
    [⟨⟨2024, 3, 1⟩, "A", .STATUTORY, "a", none, some .DAY, none⟩,
     ⟨⟨2024, 3, 1⟩, "B", .STATUTORY, "b", none, some .DAY, none⟩] 1
    ⟨⟨2024, 3, 1⟩, "B", .STATUTORY, "b", none, some .DAY, none⟩
    (by decide) (by decide)).mpr
  refine Or.inr (Or.inl ⟨by decide, ?_⟩)
  exact ⟨⟨⟨2024, 3, 1⟩, "A", .STATUTORY, "a", none, some .DAY, none⟩, by decide, by decide⟩

theorem getLast?_mem_self {α : Type} {l : List α} {a : α} (h : l.getLast? = some a) :
    a ∈ l := by
  obtain ⟨hne, heq⟩ := List.mem_getLast?_eq_getLast (show a ∈ l.getLast? by rw [h]; rfl)
  rw [heq]
  exact List.getLast_mem hne

theorem pairwise_getLast_rel {α : Type} {r : α → α → Prop} :
    ∀ {l : List α} {x y : α}, List.Pairwise r l → x ∈ l → l.getLast? = some y →
      x = y ∨ r x y := by
  intro l
  induction l with
  | nil => simp
  | cons a tl ih =>
    intro x y hp hx hl
    rcases tl with _ | ⟨b, tl'⟩
    · simp at hx hl
      subst hx
      subst hl
      left
      rfl
    · have hl' : (b :: tl').getLast? = some y := by
        rw [List.getLast?_cons_cons] at hl
        exact hl
      rcases List.mem_cons.mp hx with rfl | hx'
      · right
        exact (List.pairwise_cons.mp hp).1 y (getLast?_mem_self hl')
      · exact ih (List.pairwise_cons.mp hp).2 hx' hl'

theorem contains_false_iff {l : List CivilDate} {a : CivilDate} :
    (l.contains a = false) ↔ a ∉ l := by
  simp

theorem findSubstituteDate_some_char (occ : List CivilDate) :
    ∀ (n : Nat) (c0 c : CivilDate), validCivil c0 →
    findSubstituteDate occ c0 n = some c →
    ∃ k : Nat, k < n ∧ c = addDays c0 (k : Int) ∧
      (dayOfWeek c ≠ 0 ∧ dayOfWeek c ≠ 6) ∧ c ∉ occ ∧
      ∀ j : Nat, j < k →
        (dayOfWeek (addDays c0 (j : Int)) = 0 ∨ dayOfWeek (addDays c0 (j : Int)) = 6) ∨
          addDays c0 (j : Int) ∈ occ := by
  intro n
  induction n with
  | zero =>
    intro c0 c _ h
    simp [findSubstituteDate] at h
  | succ m ih =>
    intro c0 c hv h
    unfold findSubstituteDate at h
    split at h
    · rename_i hcond
      have hc : c = c0 := (Option.some.inj h).symm
      subst hc
      simp only [Bool.and_eq_true, Bool.not_eq_true', Bool.or_eq_false_iff,
        beq_eq_false_iff_ne, contains_false_iff] at hcond
      refine ⟨0, by omega, ?_, ⟨hcond.1.1, hcond.1.2⟩, hcond.2, by omega⟩
      rw [show ((0 : Nat) : Int) = 0 by norm_num, addDays_zero hv]
    · rename_i hcond
      obtain ⟨k, hk, hc, hgood, hnot, hblocked⟩ :=
        ih (addDays c0 1) c (addDays_char c0 1).1 h
      refine ⟨k + 1, by omega, ?_, hgood, hnot, ?_⟩
      · rw [hc, addDays_addDays]
        congr 1
        push_cast
        ring
      · intro j hj
        rcases Nat.eq_zero_or_pos j with rfl | hjpos
        · rw [show ((0 : Nat) : Int) = 0 by norm_num, addDays_zero hv]
          by_cases hw : dayOfWeek c0 = 0 ∨ dayOfWeek c0 = 6
          · exact Or.inl hw
          · push_neg at hw
            right
            by_contra hno
            apply hcond
            simp only [Bool.and_eq_true, Bool.not_eq_true', Bool.or_eq_false_iff,
              beq_eq_false_iff_ne, contains_false_iff]
            exact ⟨⟨hw.1, hw.2⟩, hno⟩
        · obtain ⟨j2, rfl⟩ : ∃ j2, j = j2 + 1 := ⟨j - 1, by omega⟩
          have hb := hblocked j2 (by omega)
          rw [addDays_addDays] at hb
          rw [show ((j2 + 1 : Nat) : Int) = 1 + (j2 : Int) by push_cast; ring]
          exact hb

/-- Eligibility of a holiday id under the policy's {id -> fromYear} map:
present, non-zero (JS falsiness) and not in the future. -/
def eligOK (elig : List (String × Int)) (year : Int) (p : HolidayItem) : Prop :=
  ∃ f, lookupEligible elig p.id = some f ∧ f ≠ 0 ∧ f ≤ year

instance (elig : List (String × Int)) (year : Int) (p : HolidayItem) :
    Decidable (eligOK elig year p) :=
  match hl : lookupEligible elig p.id with
  | none => isFalse (by simp [eligOK, hl])
  | some f => decidable_of_iff (f ≠ 0 ∧ f ≤ year) (by simp [eligOK, hl])

theorem applyStep_cases (elig : List (String × Int)) (year : Int)
    (subs : List HolidayItem) (occ : List CivilDate) (prev : List HolidayItem)
    (h : HolidayItem) :
    applyStep elig year (subs, occ) prev h = (subs, occ) ∨
    ∃ (c : CivilDate) (k : Nat), eligOK elig year h ∧
      applyStep elig year (subs, occ) prev h =
        (subs ++ [mkSubstituteItem c h.date], occ ++ [c]) ∧
      k < 10 ∧ c = addDays h.date ((k : Int) + 1) ∧
      (dayOfWeek c ≠ 0 ∧ dayOfWeek c ≠ 6) ∧ c ∉ occ ∧
      ∀ j : Nat, j < k →
        (dayOfWeek (addDays h.date ((j : Int) + 1)) = 0 ∨
         dayOfWeek (addDays h.date ((j : Int) + 1)) = 6) ∨
          addDays h.date ((j : Int) + 1) ∈ occ := by
  unfold applyStep
  rcases hlook : lookupEligible elig h.id with _ | f
  · exact Or.inl rfl
  · dsimp only
    by_cases hf0 : f = 0
    · rw [if_pos hf0]
      exact Or.inl rfl
    · rw [if_neg hf0]
      by_cases hfy : year < f
      · rw [if_pos hfy]
        exact Or.inl rfl
      · rw [if_neg hfy]
        by_cases hneed : needsSubstituteCode prev h = true
        · rw [if_pos hneed]
          rcases hfind : findSubstituteDate occ (addDays h.date 1) 10 with _ | c
          · exact Or.inl rfl
          · obtain ⟨k, hk, hc, hgood, hnot, hblocked⟩ :=
              findSubstituteDate_some_char occ 10 (addDays h.date 1) c
                (addDays_char h.date 1).1 hfind
            right
            refine ⟨c, k, ⟨f, hlook, hf0, by omega⟩, rfl, hk, ?_, hgood, hnot, ?_⟩
            · rw [hc, addDays_addDays]
              congr 1
              ring
            · intro j hj
              have := hblocked j hj
              rw [addDays_addDays, show (1 + (j : Int)) = (j : Int) + 1 by ring] at this
              exact this
        · rw [if_neg hneed]
          exact Or.inl rfl

theorem applyAux_spec (elig : List (String × Int)) (year : Int) :
    ∀ (rest prev subs : List HolidayItem) (occ : List CivilDate),
    (∀ x ∈ rest, validCivil x.date) →
    List.Pairwise (fun a b : HolidayItem => toEpochDays a.date ≤ toEpochDays b.date) rest →
    (∀ s ∈ subs, s.date ∈ occ) →
    (∀ s ∈ subs, validCivil s.date) →
    (∀ s ∈ subs, ∃ p ∈ prev, eligOK elig year p ∧ s.substituteFor = some p.date ∧
      s.kind = HolidayKind.SUBSTITUTE) →
    List.Pairwise (fun a b : HolidayItem => toEpochDays a.date < toEpochDays b.date) subs →
    (∀ s, subs.getLast? = some s → ∃ b : CivilDate,
      s.substituteFor = some b ∧
      (∀ x ∈ rest, toEpochDays b ≤ toEpochDays x.date) ∧
      (∀ c : CivilDate, validCivil c → toEpochDays b < toEpochDays c →
        toEpochDays c < toEpochDays s.date →
        (dayOfWeek c = 0 ∨ dayOfWeek c = 6) ∨ c ∈ occ)) →
    (∀ s ∈ (applyAux elig year prev rest (subs, occ)).1,
      ∃ p ∈ prev ++ rest, eligOK elig year p ∧ s.substituteFor = some p.date ∧
        s.kind = HolidayKind.SUBSTITUTE) ∧
    List.Pairwise (fun a b : HolidayItem => toEpochDays a.date < toEpochDays b.date)
      (applyAux elig year prev rest (subs, occ)).1 ∧
    (∀ s ∈ (applyAux elig year prev rest (subs, occ)).1, validCivil s.date) := by
  intro rest
  induction rest with
  | nil =>
    intro prev subs occ hvalid hsorted hin hvalidS hA hlt hC
    simp only [applyAux]
    refine ⟨?_, hlt, hvalidS⟩
    intro s hs
    obtain ⟨p, hp, hrest⟩ := hA s hs
    exact ⟨p, by simpa using hp, hrest⟩
  | cons h rest2 ih =>
    intro prev subs occ hvalid hsorted hin hvalidS hA hlt hC
    simp only [applyAux]
    have hvalid2 : ∀ x ∈ rest2, validCivil x.date :=
      fun x hx => hvalid x (List.mem_cons_of_mem _ hx)
    have hsorted2 := (List.pairwise_cons.mp hsorted).2
    have hhead := (List.pairwise_cons.mp hsorted).1
    rcases applyStep_cases elig year subs occ prev h with heq |
      ⟨c, k, helig, heq, hk10, hc, hdow, hnoc, hblocked⟩
    · rw [heq]
      have hA2 : ∀ s ∈ subs, ∃ p ∈ prev ++ [h], eligOK elig year p ∧
          s.substituteFor = some p.date ∧ s.kind = HolidayKind.SUBSTITUTE := by
        intro s hs
        obtain ⟨p, hp, hrest⟩ := hA s hs
        exact ⟨p, List.mem_append_left _ hp, hrest⟩
      have hC2 : ∀ s, subs.getLast? = some s → ∃ b : CivilDate,
          s.substituteFor = some b ∧
          (∀ x ∈ rest2, toEpochDays b ≤ toEpochDays x.date) ∧
          (∀ c2 : CivilDate, validCivil c2 → toEpochDays b < toEpochDays c2 →
            toEpochDays c2 < toEpochDays s.date →
            (dayOfWeek c2 = 0 ∨ dayOfWeek c2 = 6) ∨ c2 ∈ occ) := by
        intro s hs
        obtain ⟨b, h1, h2, h3⟩ := hC s hs
        exact ⟨b, h1, fun x hx => h2 x (List.mem_cons_of_mem _ hx), h3⟩
      have conc := ih (prev ++ [h]) subs occ hvalid2 hsorted2 hin hvalidS hA2 hlt hC2
      rwa [List.append_assoc, List.singleton_append] at conc
    · rw [heq]
      have hvc : validCivil c := by
        rw [hc]
        exact (addDays_char _ _).1
      have hec : toEpochDays c = toEpochDays h.date + ((k : Int) + 1) := by
        rw [hc, (addDays_char h.date _).2]
      have hkey : ∀ s ∈ subs, toEpochDays s.date < toEpochDays c := by
        intro s hs
        have hne : subs ≠ [] := by
          intro hemp
          rw [hemp] at hs
          simp at hs
        obtain ⟨sl, hsl⟩ : ∃ sl, subs.getLast? = some sl := by
          rcases hgl : subs.getLast? with _ | sl
          · exfalso
            rw [← List.getLast?_isSome, hgl] at hne
            simp at hne
          · exact ⟨sl, rfl⟩
        obtain ⟨b, _, hb2, hb3⟩ := hC sl hsl
        have hslmem := getLast?_mem_self hsl
        have hbh : toEpochDays b ≤ toEpochDays h.date := hb2 h (List.mem_cons_self _ _)
        have hbc : toEpochDays b < toEpochDays c := by omega
        have hcl : ¬toEpochDays c < toEpochDays sl.date := by
          intro hlt2
          rcases hb3 c hvc hbc hlt2 with hw | hmem
          · rcases hw with h0 | h6
            · exact hdow.1 h0
            · exact hdow.2 h6
          · exact hnoc hmem
        have hne2 : toEpochDays c ≠ toEpochDays sl.date := by
          intro heq2
          have hceq : c = sl.date := toEpochDays_inj hvc (hvalidS sl hslmem) heq2
          exact hnoc (hceq ▸ hin sl hslmem)
        have hlast : toEpochDays sl.date < toEpochDays c := by omega
        rcases pairwise_getLast_rel hlt hs hsl with rfl | hrel
        · exact hlast
        · omega
      have hin2 : ∀ s ∈ subs ++ [mkSubstituteItem c h.date], s.date ∈ occ ++ [c] := by
        intro s hs
        rcases List.mem_append.mp hs with hs1 | hs2
        · exact List.mem_append_left _ (hin s hs1)
        · rw [List.mem_singleton] at hs2
          subst hs2
          exact List.mem_append_right _ (by simp [mkSubstituteItem])
      have hvalidS2 : ∀ s ∈ subs ++ [mkSubstituteItem c h.date], validCivil s.date := by
        intro s hs
        rcases List.mem_append.mp hs with hs1 | hs2
        · exact hvalidS s hs1
        · rw [List.mem_singleton] at hs2
          subst hs2
          simpa [mkSubstituteItem] using hvc
      have hA2 : ∀ s ∈ subs ++ [mkSubstituteItem c h.date], ∃ p ∈ prev ++ [h],
          eligOK elig year p ∧ s.substituteFor = some p.date ∧
          s.kind = HolidayKind.SUBSTITUTE := by
        intro s hs
        rcases List.mem_append.mp hs with hs1 | hs2
        · obtain ⟨p, hp, hrest⟩ := hA s hs1
          exact ⟨p, List.mem_append_left _ hp, hrest⟩
        · rw [List.mem_singleton] at hs2
          subst hs2
          exact ⟨h, List.mem_append_right _ (by simp), helig, by simp [mkSubstituteItem], rfl⟩
      have hlt2 : List.Pairwise (fun a b : HolidayItem =>
          toEpochDays a.date < toEpochDays b.date) (subs ++ [mkSubstituteItem c h.date]) := by
        rw [List.pairwise_append]
        refine ⟨hlt, List.pairwise_singleton _ _, ?_⟩
        intro s hs y hy
        rw [List.mem_singleton] at hy
        subst hy
        simpa [mkSubstituteItem] using hkey s hs
      have hC2 : ∀ s, (subs ++ [mkSubstituteItem c h.date]).getLast? = some s →
          ∃ b : CivilDate, s.substituteFor = some b ∧
          (∀ x ∈ rest2, toEpochDays b ≤ toEpochDays x.date) ∧
          (∀ c2 : CivilDate, validCivil c2 → toEpochDays b < toEpochDays c2 →
            toEpochDays c2 < toEpochDays s.date →
            (dayOfWeek c2 = 0 ∨ dayOfWeek c2 = 6) ∨ c2 ∈ occ ++ [c]) := by
        intro s hs
        rw [List.getLast?_concat] at hs
        have hseq := Option.some.inj hs
        subst hseq
        refine ⟨h.date, by simp [mkSubstituteItem], fun x hx => hhead x hx, ?_⟩
        intro c2 hv2 hgt hlt3
        simp only [mkSubstituteItem] at hlt3
        have hj0 : 0 ≤ toEpochDays c2 - toEpochDays h.date - 1 := by omega
        have hjk : ((toEpochDays c2 - toEpochDays h.date - 1).toNat : Int) =
            toEpochDays c2 - toEpochDays h.date - 1 := by omega
        have hjlt : (toEpochDays c2 - toEpochDays h.date - 1).toNat < k := by omega
        have hc2eq : c2 = addDays h.date
            (((toEpochDays c2 - toEpochDays h.date - 1).toNat : Int) + 1) := by
          apply toEpochDays_inj hv2 (addDays_char _ _).1
          rw [(addDays_char _ _).2]
          omega
        rcases hblocked _ hjlt with hw | hmem
        · left
          rw [hc2eq]
          exact hw
        · right
          exact List.mem_append_left _ (hc2eq ▸ hmem)
      have conc := ih (prev ++ [h]) (subs ++ [mkSubstituteItem c h.date]) (occ ++ [c])
        hvalid2 hsorted2 hin2 hvalidS2 hA2 hlt2 hC2
      rwa [List.append_assoc, List.singleton_append] at conc

/-- C6 counterexample: apply does not sort its output.  With the two
eligible DAY holidays given in descending date order (B on Sunday
2024-01-14 before A on Saturday 2024-01-06), the substitutes come out as
[2024-01-15, 2024-01-08], which is not ascending — refuting the claim that
the returned list is sorted ascending by date for every input. -/
theorem c6_apply_unsorted_counterexample :
    ¬ List.Pairwise (fun a b : HolidayItem => dateLE a.date b.date)
      (applyPolicy [("A", 2000), ("B", 2000)] 2024
        [⟨⟨2024, 1, 14⟩, "B", .STATUTORY, "b", none, some .DAY, none⟩,
         ⟨⟨2024, 1, 6⟩, "A", .STATUTORY, "a", none, some .DAY, none⟩]) := by
  decide

/-- C6 (amended): provided the base holidays carry valid dates and are
given in ascending date order — as getBaseHolidays produces them — apply
emits substitutes only for base holidays whose id is in the {id -> fromYear}
table with a non-zero fromYear at most the target year, each substitute's
substituteFor is the triggering base holiday's date, every substitute has
kind SUBSTITUTE, and the returned list is sorted ascending by date. -/
theorem c6_apply_output_properties :
    ∀ (elig : List (String × Int)) (year : Int) (bhs : List HolidayItem),
      (∀ x ∈ bhs, validCivil x.date) →
      List.Pairwise (fun a b : HolidayItem => dateLE a.date b.date) bhs →
      (∀ s ∈ applyPolicy elig year bhs,
        ∃ p ∈ bhs, eligOK elig year p ∧ s.substituteFor = some p.date ∧
          s.kind = HolidayKind.SUBSTITUTE) ∧
      List.Pairwise (fun a b : HolidayItem => dateLE a.date b.date)
        (applyPolicy elig year bhs) := by
  intro elig year bhs hvalid hsorted
  have hsortedE : List.Pairwise (fun a b : HolidayItem =>
      toEpochDays a.date ≤ toEpochDays b.date) bhs := by
    refine List.Pairwise.imp_of_mem ?_ hsorted
    intro a b ha hb hab
    exact (dateLE_iff_epoch (hvalid a ha) (hvalid b hb)).mp hab
  have hspec := applyAux_spec elig year bhs [] [] (bhs.map (fun x => x.date))
    hvalid hsortedE (by simp) (by simp) (by simp) (by simp) (by simp)
  obtain ⟨hA, hlt, hval⟩ := hspec
  unfold applyPolicy
  constructor
  · intro s hs
    obtain ⟨p, hp, hrest⟩ := hA s hs
    exact ⟨p, by simpa using hp, hrest⟩
  · refine List.Pairwise.imp_of_mem ?_ hlt
    intro a b ha hb hab
    exact (dateLE_iff_epoch (hval a ha) (hval b hb)).mpr (le_of_lt hab)

/-- Witness for C6 (amended) at the sorted two-holiday input. -/
theorem c6_apply_output_properties_witness :
    (∀ s ∈ applyPolicy [("A", 2000), ("B", 2000)] 2024
        [⟨⟨2024, 1, 6⟩, "A", .STATUTORY, "a", none, some .DAY, none⟩,
         ⟨⟨2024, 1, 14⟩, "B", .STATUTORY, "b", none, some .DAY, none⟩],
      ∃ p ∈ [⟨⟨2024, 1, 6⟩, "A", .STATUTORY, "a", none, some .DAY, none⟩,
             ⟨⟨2024, 1, 14⟩, "B", .STATUTORY, "b", none, some .DAY, none⟩],
        eligOK [("A", 2000), ("B", 2000)] 2024 p ∧ s.substituteFor = some p.date ∧
          s.kind = HolidayKind.SUBSTITUTE) ∧
    List.Pairwise (fun a b : HolidayItem => dateLE a.date b.date)
      (applyPolicy [("A", 2000), ("B", 2000)] 2024
        [⟨⟨2024, 1, 6⟩, "A", .STATUTORY, "a", none, some .DAY, none⟩,
         ⟨⟨2024, 1, 14⟩, "B", .STATUTORY, "b", none, some .DAY, none⟩]) := by
  exact c6_apply_output_properties [("A", 2000), ("B", 2000)] 2024
    [⟨⟨2024, 1, 6⟩, "A", .STATUTORY, "a", none, some .DAY, none⟩,
     ⟨⟨2024, 1, 14⟩, "B", .STATUTORY, "b", none, some .DAY, none⟩]
    (by decide) (by decide)
